import Mathlib

/-!
# Shapes of `lavrentev.makar/P5/main.cpp`

A shallow embedding of the shape classes (`Rectangle`, `Rubber`, `Polygon`) and of the
free functions `polyPos`, `fullFrame` and `userShape`.

Conventions of the embedding:

* `double` is modelled by `ℚ` with exact arithmetic (no rounding, no NaN or infinities);
  decimal literals denote their decimal value.
* An object mutated in place is modelled by state passing: a method returns the new object.
* A method that may throw returns the exception (if any) together with the state of the
  object at the point where control leaves the method.
* A C array together with its length (`point_t *`, `size_t`) is a `List`.
* `for (size_t i = 0; i < n; ++i)` loops that index several cells are modelled by `forLoop`;
  loops that visit each cell once are a `List.map` or a `List.foldl`.
* The free store is a parameter `available` of the constructor of `Polygon`: the number of
  cells a `new` expression can obtain.
-/

namespace lavrentev

/-- Exceptions thrown by the program. -/
inductive Error where
  | invalid_argument
  | bad_alloc
  | logic_error
deriving DecidableEq, Repr

/-- The record `point_t`. -/
@[ext]
structure point_t where
  x : ℚ
  y : ℚ
deriving DecidableEq

/-- The record `rectangle_t`. -/
structure rectangle_t where
  width : ℚ
  height : ℚ
  pos : point_t
deriving DecidableEq

/-- The loop `for (size_t i = 0; i < n; ++i) s = body i s` started in state `init`. -/
def forLoop {σ : Type} (n : ℕ) (body : ℕ → σ → σ) (init : σ) : σ :=
  (List.range n).foldl (fun s i => body i s) init

/-- The constant `M_PI` of `<cmath>`: the double nearest to π, which is the dyadic
rational `884279719003555 / 2 ^ 48`. -/
def M_PI : ℚ := 884279719003555 / 281474976710656

/-! ## Rectangle -/

/-- The data members of class `Rectangle`. -/
structure Rectangle where
  pos_ : point_t
  width_ : ℚ
  height_ : ℚ
deriving DecidableEq

/-- The constructor `Rectangle::Rectangle`. -/
def Rectangle.ctor (pos : point_t) (width height : ℚ) : Except Error Rectangle :=
  if width ≤ 0 ∨ height ≤ 0 then .error .invalid_argument
  else .ok { pos_ := pos, width_ := width, height_ := height }

/-- The method `Rectangle::getArea`. -/
def Rectangle.getArea (r : Rectangle) : ℚ := r.width_ * r.height_

/-- The method `Rectangle::getFrameRect`. -/
def Rectangle.getFrameRect (r : Rectangle) : rectangle_t :=
  { height := r.height_, width := r.width_, pos := r.pos_ }

/-- The method `Rectangle::move(const point_t &)`. -/
def Rectangle.move (r : Rectangle) (c : point_t) : Rectangle := { r with pos_ := c }

/-- The method `Rectangle::move(double, double)`. -/
def Rectangle.moveBy (r : Rectangle) (d_x d_y : ℚ) : Rectangle :=
  { r with pos_ := { x := r.pos_.x + d_x, y := r.pos_.y + d_y } }

/-- The method `Rectangle::scaleImpl`. -/
def Rectangle.scaleImpl (r : Rectangle) (coef : ℚ) : Rectangle :=
  { r with width_ := r.width_ * coef, height_ := r.height_ * coef }

/-! ## Rubber -/

/-- The data members of class `Rubber`. -/
structure Rubber where
  pos_ : point_t
  outCenter_ : point_t
  rPos_ : ℚ
  rOut_ : ℚ
deriving DecidableEq

/-- The constructor `Rubber::Rubber`. -/
def Rubber.ctor (pos outCenter : point_t) (rPos rOut : ℚ) : Except Error Rubber :=
  if rOut ≤ 0 ∨ rPos ≤ 0 then .error .invalid_argument
  else .ok { pos_ := pos, outCenter_ := outCenter, rPos_ := rPos, rOut_ := rOut }

/-- The method `Rubber::getArea`. -/
def Rubber.getArea (r : Rubber) : ℚ := M_PI * r.rOut_ * r.rOut_ - M_PI * r.rPos_ * r.rPos_

/-- The method `Rubber::getFrameRect`. -/
def Rubber.getFrameRect (r : Rubber) : rectangle_t :=
  { pos := r.outCenter_, height := r.rOut_ * 2, width := r.rOut_ * 2 }

/-- The method `Rubber::move(const point_t &)`. -/
def Rubber.move (r : Rubber) (c : point_t) : Rubber := { r with pos_ := c }

/-- The method `Rubber::move(double, double)`. -/
def Rubber.moveBy (r : Rubber) (d_x d_y : ℚ) : Rubber :=
  { r with pos_ := { x := r.pos_.x + d_x, y := r.pos_.y + d_y } }

/-- The method `Rubber::scaleImpl`. -/
def Rubber.scaleImpl (r : Rubber) (coef : ℚ) : Rubber :=
  { r with rPos_ := r.rPos_ * coef, rOut_ := r.rOut_ * coef }

/-! ## Polygon -/

/-- The cell `vertexes[i]` of a vertex array. -/
def vertexAt (vertexes : List point_t) (i : ℕ) : point_t := vertexes.getD i ⟨0, 0⟩

/-- The function `polyPos`: the returned pair is the `int` result and the value of the
reference parameter `pos` on return. -/
def polyPos (pos : point_t) (n : ℕ) (vertexes : List point_t) : ℤ × point_t :=
  if n < 3 then (1, pos)
  else
    let square := forLoop n (fun i sq =>
      let j := (i + 1) % n
      sq + ((vertexAt vertexes i).x * (vertexAt vertexes j).y
        - (vertexAt vertexes j).x * (vertexAt vertexes i).y)) (0 : ℚ)
    let square := square * 0.5
    if square ≠ 0 then
      let c_x := forLoop n (fun i c =>
        let j := (i + 1) % n
        let buf_1 := (vertexAt vertexes i).x + (vertexAt vertexes j).x
        let buf_2 := (vertexAt vertexes i).x * (vertexAt vertexes j).y
        let buf_3 := (vertexAt vertexes j).x * (vertexAt vertexes i).y
        c + buf_1 * (buf_2 - buf_3)) (0 : ℚ)
      let c_x := c_x / (6 * square)
      let c_y := forLoop n (fun i c =>
        let j := (i + 1) % n
        let buf_1 := (vertexAt vertexes i).y + (vertexAt vertexes j).y
        let buf_2 := (vertexAt vertexes i).x * (vertexAt vertexes j).y
        let buf_3 := (vertexAt vertexes j).x * (vertexAt vertexes i).y
        c + buf_1 * (buf_2 - buf_3)) (0 : ℚ)
      let c_y := c_y / (6 * square)
      (0, { x := c_x, y := c_y })
    else (1, pos)

/-- The data members of class `Polygon`; the member `n_` is the length of `vertexes_`. -/
structure Polygon where
  pos_ : point_t
  vertexes_ : List point_t
deriving DecidableEq

/-- The data member `n_`. -/
def Polygon.n_ (p : Polygon) : ℕ := p.vertexes_.length

/-- The seven initialisers of the `new` expression in `Polygon::Polygon`. -/
def builtinVertexes : List point_t :=
  [⟨1.2, 5.6⟩, ⟨3.3, -4.7⟩, ⟨1.1, 9.3⟩, ⟨-5.5, -3.0⟩, ⟨-7.3, -0.3⟩, ⟨-2.1, 4.8⟩, ⟨3.6, 8.3⟩]

/-- The greatest length of an array of `point_t` that a `new` expression accepts: the size
in bytes, `16 · n` for two `double` members, may not exceed `PTRDIFF_MAX = 2 ^ 63 − 1`; a
longer request throws `std::bad_array_new_length`, which is a `std::bad_alloc`. -/
def maxArrayLength : ℕ := (2 ^ 63 - 1) / 16

/-- The expression `new point_t[n]{...}` with seven initialisers. It throws a
`std::bad_alloc` (or the derived `std::bad_array_new_length`) when the initialisers do not
fit, when `n` is above `maxArrayLength`, and when the free store cannot supply `n` cells;
`available` is the number of cells the free store can supply at the time of the call.
Otherwise the cells after the seventh are value-initialised. -/
def newVertexes (available n : ℕ) : Except Error (List point_t) :=
  if n < builtinVertexes.length ∨ maxArrayLength < n ∨ available < n then .error .bad_alloc
  else .ok (builtinVertexes ++ List.replicate (n - builtinVertexes.length) ⟨0, 0⟩)

/-- The constructor `Polygon::Polygon`; the argument `vertexes` is overwritten before it is
read. `available` is the state of the free store, see `newVertexes`. -/
def Polygon.ctor (available : ℕ) (_vertexes : List point_t) (n : ℕ) : Except Error Polygon :=
  if n ≤ 2 then .error .invalid_argument
  else
    match newVertexes available n with
    | .error _ => .error .bad_alloc
    | .ok vertexes_ =>
      let r := polyPos ⟨0, 0⟩ n vertexes_
      if r.1 = 1 then .error .logic_error
      else .ok { pos_ := r.2, vertexes_ := vertexes_ }

/-- The implicit conversion of a `double` to `int`: truncation toward zero. (The conversion
is undefined when the truncated value is outside the range of `int`; the model leaves the
range unbounded.) -/
def toInt (x : ℚ) : ℤ := if 0 ≤ x then ⌊x⌋ else ⌈x⌉

/-- The call `abs(x)` of `Polygon::getArea`. The call is unqualified and only `<cmath>` is
included, which declares the overloads for `double` in namespace `std` only; the function
found is `int abs(int)` of the C library. The `double` argument is converted to `int`, and
the `int` result is converted back to `double` by the multiplication that follows. -/
def intAbs (x : ℚ) : ℚ := ((|toInt x| : ℤ) : ℚ)

/-- The method `Polygon::getArea`. -/
def Polygon.getArea (p : Polygon) : ℚ :=
  let bufs := forLoop (p.n_ - 1) (fun i (b : ℚ × ℚ) =>
    (b.1 + (vertexAt p.vertexes_ i).x * (vertexAt p.vertexes_ (i + 1)).y,
     b.2 + (vertexAt p.vertexes_ i).y * (vertexAt p.vertexes_ (i + 1)).x)) (0, 0)
  let buf1 := bufs.1 + (vertexAt p.vertexes_ (p.n_ - 1)).x * (vertexAt p.vertexes_ 0).y
  let buf2 := bufs.2 + (vertexAt p.vertexes_ (p.n_ - 1)).y * (vertexAt p.vertexes_ 0).x
  0.5 * intAbs (buf1 - buf2)

/-- One iteration of the scan in `Polygon::getFrameRect`; the state is `(l_u, r_b)`. -/
def frameStep (s : point_t × point_t) (v : point_t) : point_t × point_t :=
  let l_u := s.1
  let r_b := s.2
  let l_u := if v.x < l_u.x then { l_u with x := v.x } else l_u
  let l_u := if v.y > l_u.y then { l_u with y := v.y } else l_u
  let r_b := if v.x > r_b.x then { r_b with x := v.x } else r_b
  let r_b := if v.y < r_b.y then { r_b with y := v.y } else r_b
  (l_u, r_b)

/-- The method `Polygon::getFrameRect`. -/
def Polygon.getFrameRect (p : Polygon) : rectangle_t :=
  let s := p.vertexes_.foldl frameStep (vertexAt p.vertexes_ 0, vertexAt p.vertexes_ 0)
  let l_u := s.1
  let r_b := s.2
  let w := r_b.x - l_u.x
  let h := l_u.y - r_b.y
  { pos := { x := (r_b.x + l_u.x) * 0.5, y := (r_b.y + l_u.y) * 0.5 },
    width := w, height := h }

/-- The method `Polygon::move(const point_t &)`. -/
def Polygon.move (p : Polygon) (c : point_t) : Polygon :=
  let dx := c.x - p.pos_.x
  let dy := c.y - p.pos_.y
  { pos_ := c, vertexes_ := p.vertexes_.map (fun v => { x := v.x + dx, y := v.y + dy }) }

/-- The method `Polygon::move(double, double)`. -/
def Polygon.moveBy (p : Polygon) (d_x d_y : ℚ) : Polygon :=
  { pos_ := { x := p.pos_.x + d_x, y := p.pos_.y + d_y },
    vertexes_ := p.vertexes_.map (fun v => { x := v.x + d_x, y := v.y + d_y }) }

/-- The method `Polygon::scaleImpl`. -/
def Polygon.scaleImpl (p : Polygon) (coef : ℚ) : Polygon :=
  { p with vertexes_ := p.vertexes_.map (fun v =>
      let d_x := (v.x - p.pos_.x) * coef
      let d_y := (v.y - p.pos_.y) * coef
      { x := p.pos_.x + d_x, y := p.pos_.y + d_y }) }

/-! ## The abstract class `Shape` -/

/-- An object of one of the three classes derived from `Shape`. -/
inductive Shape where
  | rectangle (r : Rectangle)
  | rubber (r : Rubber)
  | polygon (p : Polygon)
deriving DecidableEq

/-- The virtual method `getArea`. -/
def Shape.getArea : Shape → ℚ
  | .rectangle r => r.getArea
  | .rubber r => r.getArea
  | .polygon p => p.getArea

/-- The virtual method `getFrameRect`. -/
def Shape.getFrameRect : Shape → rectangle_t
  | .rectangle r => r.getFrameRect
  | .rubber r => r.getFrameRect
  | .polygon p => p.getFrameRect

/-- The virtual method `move(const point_t &)`. -/
def Shape.move : Shape → point_t → Shape
  | .rectangle r, c => .rectangle (r.move c)
  | .rubber r, c => .rubber (r.move c)
  | .polygon p, c => .polygon (p.move c)

/-- The virtual method `move(double, double)`. -/
def Shape.moveBy : Shape → ℚ → ℚ → Shape
  | .rectangle r, d_x, d_y => .rectangle (r.moveBy d_x d_y)
  | .rubber r, d_x, d_y => .rubber (r.moveBy d_x d_y)
  | .polygon p, d_x, d_y => .polygon (p.moveBy d_x d_y)

/-- The private virtual method `scaleImpl`. -/
def Shape.scaleImpl : Shape → ℚ → Shape
  | .rectangle r, coef => .rectangle (r.scaleImpl coef)
  | .rubber r, coef => .rubber (r.scaleImpl coef)
  | .polygon p, coef => .polygon (p.scaleImpl coef)

/-- The method `Shape::scale`: the exception thrown (if any) and the object on exit. -/
def Shape.scale (s : Shape) (coef : ℚ) : Option Error × Shape :=
  if coef ≤ 0 then (some .invalid_argument, s)
  else (none, s.scaleImpl coef)

/-- The member `pos_` of each class: the reference point of the shape. -/
def Shape.pos_ : Shape → point_t
  | .rectangle r => r.pos_
  | .rubber r => r.pos_
  | .polygon p => p.pos_

/-! ## Free functions -/

/-- The four running extremes of `fullFrame`. -/
structure Extremes where
  left : ℚ
  right : ℚ
  up : ℚ
  down : ℚ
deriving DecidableEq

/-- One iteration of the loop of `fullFrame`. -/
def fullFrameStep (e : Extremes) (figure : Shape) : Extremes :=
  let buf := figure.getFrameRect
  let e := if buf.pos.x - buf.width * 0.5 < e.left
    then { e with left := buf.pos.x - buf.width * 0.5 } else e
  let e := if buf.pos.x + buf.width * 0.5 > e.right
    then { e with right := buf.pos.x + buf.width * 0.5 } else e
  let e := if buf.pos.y - buf.height * 0.5 < e.down
    then { e with down := buf.pos.y - buf.height * 0.5 } else e
  let e := if buf.pos.y + buf.height * 0.5 > e.up
    then { e with up := buf.pos.y + buf.height * 0.5 } else e
  e

/-- The function `fullFrame` on the array `figures` of length `n`. -/
def fullFrame (figures : List Shape) : rectangle_t :=
  let e := figures.foldl fullFrameStep { left := 0, right := 0, up := 0, down := 0 }
  { height := e.up - e.down, width := e.right - e.left,
    pos := { y := (e.up + e.down) * 0.5, x := (e.right + e.left) * 0.5 } }

/-- The body of the loop of `userShape` for one figure: the exception thrown (if any) and
the figure when control leaves the body. -/
def userShapeStep (figure : Shape) (user_dot : point_t) (coef : ℚ) : Option Error × Shape :=
  let point1 := figure.getFrameRect.pos
  let figure := figure.move user_dot
  let delta : point_t := { x := user_dot.x - point1.x, y := user_dot.y - point1.y }
  match figure.scale coef with
  | (some e, figure) => (some e, figure)
  | (none, figure) =>
    let res : point_t := { x := user_dot.x - delta.x * coef, y := user_dot.y - delta.y * coef }
    (none, figure.move res)

/-- The function `userShape` on the array `figures` of length `n`: the exception thrown (if
any) and the array when control leaves the function. -/
def userShape : List Shape → point_t → ℚ → Option Error × List Shape
  | [], _, _ => (none, [])
  | figure :: rest, user_dot, coef =>
    match userShapeStep figure user_dot coef with
    | (some e, figure) => (some e, figure :: rest)
    | (none, figure) =>
      let r := userShape rest user_dot coef
      (r.1, figure :: r.2)

/-- The figures constructed by `main`, in order, when no constructor throws; `vrtxs` is the
null pointer, an array of no cells; `available` is the state of the free store. -/
def startupFigures (available : ℕ) : Except Error (List Shape) := do
  let f0 ← Rectangle.ctor ⟨3, 3⟩ 8 5
  let f1 ← Rubber.ctor ⟨-7, -2⟩ ⟨-5, 0⟩ 3.5 9
  let f2 ← Polygon.ctor available [] 7
  pure [.rectangle f0, .rubber f1, .polygon f2]

/-! ## Predicates used in the statements -/

/-- What the guards of the three constructors establish about the stored sizes: positive
width and height, positive radii, more than two vertices. -/
def Shape.wellFormed : Shape → Prop
  | .rectangle r => 0 < r.width_ ∧ 0 < r.height_
  | .rubber r => 0 < r.rOut_ ∧ 0 < r.rPos_
  | .polygon p => 2 < p.n_

/-- The point `target + factor · (before − target)`. -/
def scaledAbout (target before : point_t) (factor : ℚ) : point_t :=
  { x := target.x + factor * (before.x - target.x),
    y := target.y + factor * (before.y - target.y) }

/-- The relation between a figure `s` and the same figure `t` after one iteration of
`userShape` with a positive factor: the sizes of the bounding rectangle are multiplied by
the factor, the reference point is the centre of the old bounding rectangle scaled about
the target, and the centre of the new bounding rectangle is that same point for a
`Rectangle`, is unchanged for a `Rubber`, and is that point displaced by
`factor · (before − pos_)` for a `Polygon`. -/
def userShapeRel (target : point_t) (factor : ℚ) (s t : Shape) : Prop :=
  t.getFrameRect.width = factor * s.getFrameRect.width ∧
  t.getFrameRect.height = factor * s.getFrameRect.height ∧
  t.pos_ = scaledAbout target s.getFrameRect.pos factor ∧
  match s with
  | .rectangle _ => t.getFrameRect.pos = scaledAbout target s.getFrameRect.pos factor
  | .rubber _ => t.getFrameRect.pos = s.getFrameRect.pos
  | .polygon p => t.getFrameRect.pos =
      { x := (scaledAbout target s.getFrameRect.pos factor).x
          + factor * (s.getFrameRect.pos.x - p.pos_.x),
        y := (scaledAbout target s.getFrameRect.pos factor).y
          + factor * (s.getFrameRect.pos.y - p.pos_.y) }

/-- All four corners of `inner` lie within `[pos.x ± width/2] × [pos.y ± height/2]` of
`outer`. -/
def encloses (outer inner : rectangle_t) : Prop :=
  (outer.pos.x - outer.width / 2 ≤ inner.pos.x - inner.width / 2 ∧
    inner.pos.x - inner.width / 2 ≤ outer.pos.x + outer.width / 2) ∧
  (outer.pos.x - outer.width / 2 ≤ inner.pos.x + inner.width / 2 ∧
    inner.pos.x + inner.width / 2 ≤ outer.pos.x + outer.width / 2) ∧
  (outer.pos.y - outer.height / 2 ≤ inner.pos.y - inner.height / 2 ∧
    inner.pos.y - inner.height / 2 ≤ outer.pos.y + outer.height / 2) ∧
  (outer.pos.y - outer.height / 2 ≤ inner.pos.y + inner.height / 2 ∧
    inner.pos.y + inner.height / 2 ≤ outer.pos.y + outer.height / 2)

/-- The `Rectangle` of `main` after its construction. -/
def startupRectangle : Rectangle := { pos_ := ⟨3, 3⟩, width_ := 8, height_ := 5 }

/-- The `Rubber` of `main` after its construction. -/
def startupRubber : Rubber :=
  { pos_ := ⟨-7, -2⟩, outCenter_ := ⟨-5, 0⟩, rPos_ := 3.5, rOut_ := 9 }

/-- The `Polygon` of `main` after its construction. -/
def startupPolygon : Polygon :=
  { pos_ := ⟨-430097 / 62520, -9523 / 15630⟩, vertexes_ := builtinVertexes }

/-- The figures of `main` after their construction. -/
def startupList : List Shape :=
  [.rectangle startupRectangle, .rubber startupRubber, .polygon startupPolygon]

/-- The cyclic shoelace signed area `½ · Σ (x_i · y_j − x_j · y_i)`, `j = (i + 1) mod n`, of
the first `n` cells of a vertex array, in the words of the specification. -/
def shoelaceSignedArea (n : ℕ) (vertexes : List point_t) : ℚ :=
  (∑ i in Finset.range n,
    ((vertexAt vertexes i).x * (vertexAt vertexes ((i + 1) % n)).y
      - (vertexAt vertexes ((i + 1) % n)).x * (vertexAt vertexes i).y)) / 2

/-- The shoelace centroid
`(Σ (x_i + x_j)(x_i · y_j − x_j · y_i) / (6A), Σ (y_i + y_j)(x_i · y_j − x_j · y_i) / (6A))`,
`j = (i + 1) mod n`, `A` the signed area, in the words of the specification. -/
def shoelaceCentroid (n : ℕ) (vertexes : List point_t) : point_t :=
  { x := (∑ i in Finset.range n,
        ((vertexAt vertexes i).x + (vertexAt vertexes ((i + 1) % n)).x)
          * ((vertexAt vertexes i).x * (vertexAt vertexes ((i + 1) % n)).y
            - (vertexAt vertexes ((i + 1) % n)).x * (vertexAt vertexes i).y))
      / (6 * shoelaceSignedArea n vertexes),
    y := (∑ i in Finset.range n,
        ((vertexAt vertexes i).y + (vertexAt vertexes ((i + 1) % n)).y)
          * ((vertexAt vertexes i).x * (vertexAt vertexes ((i + 1) % n)).y
            - (vertexAt vertexes ((i + 1) % n)).x * (vertexAt vertexes i).y))
      / (6 * shoelaceSignedArea n vertexes) }

/-- Well-formedness of a polygon: more than two vertices, a non-zero cyclic shoelace signed
area, and the reference point `pos_` at the shoelace centroid of the vertices. -/
def Polygon.centred (p : Polygon) : Prop :=
  2 < p.n_ ∧ shoelaceSignedArea p.n_ p.vertexes_ ≠ 0 ∧
    p.pos_ = shoelaceCentroid p.n_ p.vertexes_

/-- The objects that the program can hold: the result of a constructor that returned
normally, and every object obtained from such a result by `move(point)`,
`move(dx, dy)` and `scale(k)` with `k > 0` (the calls of `scale` that return normally). -/
inductive Reachable : Shape → Prop where
  | rectangle (pos : point_t) (width height : ℚ) (r : Rectangle) :
      Rectangle.ctor pos width height = .ok r → Reachable (.rectangle r)
  | rubber (pos outCenter : point_t) (rPos rOut : ℚ) (r : Rubber) :
      Rubber.ctor pos outCenter rPos rOut = .ok r → Reachable (.rubber r)
  | polygon (available : ℕ) (vertexes : List point_t) (n : ℕ) (p : Polygon) :
      Polygon.ctor available vertexes n = .ok p → Reachable (.polygon p)
  | move (s : Shape) (c : point_t) : Reachable s → Reachable (s.move c)
  | moveBy (s : Shape) (d_x d_y : ℚ) : Reachable s → Reachable (s.moveBy d_x d_y)
  | scale (s : Shape) (k : ℚ) : Reachable s → 0 < k → Reachable (s.scale k).2

/-! ## Loops -/

theorem forLoop_zero {σ : Type} (body : ℕ → σ → σ) (init : σ) : forLoop 0 body init = init := by
  simp [forLoop]

theorem forLoop_succ {σ : Type} (n : ℕ) (body : ℕ → σ → σ) (init : σ) :
    forLoop (n + 1) body init = body n (forLoop n body init) := by
  simp [forLoop, List.range_succ]

/-- An accumulating loop computes a finite sum. -/
theorem forLoop_add (n : ℕ) (f : ℕ → ℚ) (a : ℚ) :
    forLoop n (fun i s => s + f i) a = a + ∑ i in Finset.range n, f i := by
  induction n with
  | zero => simp [forLoop_zero]
  | succ n ih => rw [forLoop_succ, ih, Finset.sum_range_succ]; ring

/-- A loop with two accumulators computes two finite sums. -/
theorem forLoop_add_pair (n : ℕ) (f g : ℕ → ℚ) (a b : ℚ) :
    forLoop n (fun i (s : ℚ × ℚ) => (s.1 + f i, s.2 + g i)) (a, b)
      = (a + ∑ i in Finset.range n, f i, b + ∑ i in Finset.range n, g i) := by
  induction n with
  | zero => simp [forLoop_zero]
  | succ n ih => rw [forLoop_succ, ih, Finset.sum_range_succ, Finset.sum_range_succ]; simp [add_assoc]

/-! ## Running minimum and maximum -/

theorem foldl_min_le_init (l : List ℚ) (a : ℚ) : l.foldl min a ≤ a := by
  induction l generalizing a with
  | nil => simp
  | cons b l ih => exact le_trans (ih (min a b)) (min_le_left a b)

theorem foldl_min_le (l : List ℚ) (a : ℚ) : ∀ b ∈ l, l.foldl min a ≤ b := by
  induction l generalizing a with
  | nil => simp
  | cons c l ih =>
    intro b hb
    rcases List.mem_cons.mp hb with rfl | hb
    · exact le_trans (foldl_min_le_init l (min a b)) (min_le_right a b)
    · exact ih (min a c) b hb

theorem foldl_min_mem (l : List ℚ) (a : ℚ) : l.foldl min a = a ∨ l.foldl min a ∈ l := by
  induction l generalizing a with
  | nil => simp
  | cons c l ih =>
    rw [List.foldl_cons]
    rcases ih (min a c) with h | h
    · rw [h]
      rcases min_choice a c with h2 | h2
      · left; exact h2
      · right; rw [h2]; exact List.mem_cons_self c l
    · right; exact List.mem_cons_of_mem _ h

theorem le_foldl_max_init (l : List ℚ) (a : ℚ) : a ≤ l.foldl max a := by
  induction l generalizing a with
  | nil => simp
  | cons b l ih => exact le_trans (le_max_left a b) (ih (max a b))

theorem le_foldl_max (l : List ℚ) (a : ℚ) : ∀ b ∈ l, b ≤ l.foldl max a := by
  induction l generalizing a with
  | nil => simp
  | cons c l ih =>
    intro b hb
    rcases List.mem_cons.mp hb with rfl | hb
    · exact le_trans (le_max_right a b) (le_foldl_max_init l (max a b))
    · exact ih (max a c) b hb

theorem foldl_max_mem (l : List ℚ) (a : ℚ) : l.foldl max a = a ∨ l.foldl max a ∈ l := by
  induction l generalizing a with
  | nil => simp
  | cons c l ih =>
    rw [List.foldl_cons]
    rcases ih (max a c) with h | h
    · rw [h]
      rcases max_choice a c with h2 | h2
      · left; exact h2
      · right; rw [h2]; exact List.mem_cons_self c l
    · right; exact List.mem_cons_of_mem _ h

/-- The running minimum commutes with an increasing affine map. -/
theorem foldl_min_affine (k c : ℚ) (hk : 0 ≤ k) (l : List ℚ) (a : ℚ) :
    (l.map (fun t => k * t + c)).foldl min (k * a + c) = k * l.foldl min a + c := by
  induction l generalizing a with
  | nil => simp
  | cons b l ih =>
    have h : min (k * a + c) (k * b + c) = k * min a b + c := by
      rw [min_add_add_right, mul_min_of_nonneg _ _ hk]
    simp only [List.map_cons, List.foldl_cons, h, ih]

/-- The running maximum commutes with an increasing affine map. -/
theorem foldl_max_affine (k c : ℚ) (hk : 0 ≤ k) (l : List ℚ) (a : ℚ) :
    (l.map (fun t => k * t + c)).foldl max (k * a + c) = k * l.foldl max a + c := by
  induction l generalizing a with
  | nil => simp
  | cons b l ih =>
    have h : max (k * a + c) (k * b + c) = k * max a b + c := by
      rw [max_add_add_right, mul_max_of_nonneg _ _ hk]
    simp only [List.map_cons, List.foldl_cons, h, ih]

/-! ## The scan of `Polygon::getFrameRect` -/

theorem frameStep_fields (s : point_t × point_t) (v : point_t) :
    (frameStep s v).1.x = min s.1.x v.x ∧ (frameStep s v).1.y = max s.1.y v.y ∧
    (frameStep s v).2.x = max s.2.x v.x ∧ (frameStep s v).2.y = min s.2.y v.y := by
  simp only [frameStep, min_def, max_def]
  refine ⟨?_, ?_, ?_, ?_⟩ <;> split_ifs <;> first | rfl | (simp only []; linarith) | linarith

theorem foldl_frameStep_fields (vs : List point_t) (s : point_t × point_t) :
    (vs.foldl frameStep s).1.x = (vs.map point_t.x).foldl min s.1.x ∧
    (vs.foldl frameStep s).1.y = (vs.map point_t.y).foldl max s.1.y ∧
    (vs.foldl frameStep s).2.x = (vs.map point_t.x).foldl max s.2.x ∧
    (vs.foldl frameStep s).2.y = (vs.map point_t.y).foldl min s.2.y := by
  induction vs generalizing s with
  | nil => simp
  | cons v vs ih =>
    obtain ⟨h1, h2, h3, h4⟩ := frameStep_fields s v
    obtain ⟨i1, i2, i3, i4⟩ := ih (frameStep s v)
    simp only [List.foldl_cons, List.map_cons]
    rw [i1, i2, i3, i4, h1, h2, h3, h4]
    exact ⟨rfl, rfl, rfl, rfl⟩

/-- The extremes found by the scan of `Polygon::getFrameRect`. -/
theorem Polygon.getFrameRect_fields (p : Polygon) :
    p.getFrameRect.width
        = (p.vertexes_.map point_t.x).foldl max (vertexAt p.vertexes_ 0).x
          - (p.vertexes_.map point_t.x).foldl min (vertexAt p.vertexes_ 0).x ∧
    p.getFrameRect.height
        = (p.vertexes_.map point_t.y).foldl max (vertexAt p.vertexes_ 0).y
          - (p.vertexes_.map point_t.y).foldl min (vertexAt p.vertexes_ 0).y ∧
    p.getFrameRect.pos.x
        = ((p.vertexes_.map point_t.x).foldl max (vertexAt p.vertexes_ 0).x
          + (p.vertexes_.map point_t.x).foldl min (vertexAt p.vertexes_ 0).x) * (1 / 2) ∧
    p.getFrameRect.pos.y
        = ((p.vertexes_.map point_t.y).foldl min (vertexAt p.vertexes_ 0).y
          + (p.vertexes_.map point_t.y).foldl max (vertexAt p.vertexes_ 0).y) * (1 / 2) := by
  obtain ⟨h1, h2, h3, h4⟩ :=
    foldl_frameStep_fields p.vertexes_ (vertexAt p.vertexes_ 0, vertexAt p.vertexes_ 0)
  simp only [Polygon.getFrameRect, h1, h2, h3, h4]
  norm_num

theorem vertexAt_zero_mem (vs : List point_t) (h : vs ≠ []) : vertexAt vs 0 ∈ vs := by
  cases vs with
  | nil => exact absurd rfl h
  | cons v vs => simp [vertexAt]

theorem vertexAt_map (g : point_t → point_t) (vs : List point_t) (i : ℕ) (h : i < vs.length) :
    vertexAt (vs.map g) i = g (vertexAt vs i) := by
  simp [vertexAt, List.getD_eq_getElem?_getD, List.getElem?_eq_getElem h]

/-- The bounding rectangle of the image of a vertex list under a map that is increasing and
affine in each coordinate. -/
theorem Polygon.getFrameRect_affine (g : point_t → point_t) (k cx cy : ℚ) (hk : 0 ≤ k)
    (hx : ∀ v, (g v).x = k * v.x + cx) (hy : ∀ v, (g v).y = k * v.y + cy)
    (q q2 : point_t) (vs : List point_t) (h : vs ≠ []) :
    (Polygon.getFrameRect ⟨q2, vs.map g⟩).width = k * (Polygon.getFrameRect ⟨q, vs⟩).width ∧
    (Polygon.getFrameRect ⟨q2, vs.map g⟩).height = k * (Polygon.getFrameRect ⟨q, vs⟩).height ∧
    (Polygon.getFrameRect ⟨q2, vs.map g⟩).pos.x
      = k * (Polygon.getFrameRect ⟨q, vs⟩).pos.x + cx ∧
    (Polygon.getFrameRect ⟨q2, vs.map g⟩).pos.y
      = k * (Polygon.getFrameRect ⟨q, vs⟩).pos.y + cy := by
  have hlen : 0 < vs.length := List.length_pos.mpr h
  have mx : (vs.map g).map point_t.x = (vs.map point_t.x).map (fun t => k * t + cx) := by
    simp [List.map_map, Function.comp_def, hx]
  have my : (vs.map g).map point_t.y = (vs.map point_t.y).map (fun t => k * t + cy) := by
    simp [List.map_map, Function.comp_def, hy]
  obtain ⟨a1, a2, a3, a4⟩ := Polygon.getFrameRect_fields ⟨q2, vs.map g⟩
  obtain ⟨b1, b2, b3, b4⟩ := Polygon.getFrameRect_fields ⟨q, vs⟩
  simp only [vertexAt_map g vs 0 hlen, hx, hy, mx, my, foldl_min_affine k _ hk,
    foldl_max_affine k _ hk] at a1 a2 a3 a4
  simp only at b1 b2 b3 b4
  rw [a1, a2, a3, a4, b1, b2, b3, b4]
  refine ⟨by ring, by ring, by ring, by ring⟩

theorem range_seven : List.range 7 = [0, 1, 2, 3, 4, 5, 6] := by decide

/-! ## Moves and scalings of a polygon as affine maps -/

theorem Polygon.move_vertexes (p : Polygon) (c : point_t) :
    (p.move c).vertexes_ = p.vertexes_.map
      (fun v => ⟨1 * v.x + (c.x - p.pos_.x), 1 * v.y + (c.y - p.pos_.y)⟩) := by
  simp [Polygon.move]

theorem Polygon.scaleImpl_vertexes (p : Polygon) (coef : ℚ) :
    (p.scaleImpl coef).vertexes_ = p.vertexes_.map
      (fun v => ⟨coef * v.x + (p.pos_.x - coef * p.pos_.x),
        coef * v.y + (p.pos_.y - coef * p.pos_.y)⟩) := by
  simp only [Polygon.scaleImpl]
  refine List.map_congr_left (fun v _ => ?_)
  ext <;> simp <;> ring

/-- The move of a polygon translates the centre of its bounding rectangle by the
displacement of the reference point and keeps its sizes. -/
theorem Polygon.getFrameRect_move (p : Polygon) (c : point_t) (h : p.vertexes_ ≠ []) :
    (p.move c).getFrameRect.width = p.getFrameRect.width ∧
    (p.move c).getFrameRect.height = p.getFrameRect.height ∧
    (p.move c).getFrameRect.pos.x = p.getFrameRect.pos.x + (c.x - p.pos_.x) ∧
    (p.move c).getFrameRect.pos.y = p.getFrameRect.pos.y + (c.y - p.pos_.y) := by
  have e : p.move c = ⟨c, p.vertexes_.map
      (fun v => ⟨1 * v.x + (c.x - p.pos_.x), 1 * v.y + (c.y - p.pos_.y)⟩)⟩ := by
    rw [← Polygon.move_vertexes]; rfl
  obtain ⟨h1, h2, h3, h4⟩ := Polygon.getFrameRect_affine
    (fun v => ⟨1 * v.x + (c.x - p.pos_.x), 1 * v.y + (c.y - p.pos_.y)⟩) 1
    (c.x - p.pos_.x) (c.y - p.pos_.y) zero_le_one (fun _ => rfl) (fun _ => rfl)
    p.pos_ c p.vertexes_ h
  rw [e, h1, h2, h3, h4]
  simp

/-- The scaling of a polygon by a positive factor scales its bounding rectangle about the
reference point. -/
theorem Polygon.getFrameRect_scaleImpl (p : Polygon) (coef : ℚ) (hc : 0 ≤ coef)
    (h : p.vertexes_ ≠ []) :
    (p.scaleImpl coef).getFrameRect.width = coef * p.getFrameRect.width ∧
    (p.scaleImpl coef).getFrameRect.height = coef * p.getFrameRect.height ∧
    (p.scaleImpl coef).getFrameRect.pos.x
      = p.pos_.x + coef * (p.getFrameRect.pos.x - p.pos_.x) ∧
    (p.scaleImpl coef).getFrameRect.pos.y
      = p.pos_.y + coef * (p.getFrameRect.pos.y - p.pos_.y) := by
  have e : p.scaleImpl coef = ⟨p.pos_, p.vertexes_.map
      (fun v => ⟨coef * v.x + (p.pos_.x - coef * p.pos_.x),
        coef * v.y + (p.pos_.y - coef * p.pos_.y)⟩)⟩ := by
    rw [← Polygon.scaleImpl_vertexes]; rfl
  obtain ⟨h1, h2, h3, h4⟩ := Polygon.getFrameRect_affine
    (fun v => ⟨coef * v.x + (p.pos_.x - coef * p.pos_.x),
        coef * v.y + (p.pos_.y - coef * p.pos_.y)⟩) coef
    (p.pos_.x - coef * p.pos_.x) (p.pos_.y - coef * p.pos_.y) hc (fun _ => rfl) (fun _ => rfl)
    p.pos_ p.pos_ p.vertexes_ h
  rw [e, h1, h2, h3, h4]
  refine ⟨rfl, rfl, by ring, by ring⟩

theorem Polygon.move_ne_nil (p : Polygon) (c : point_t) (h : p.vertexes_ ≠ []) :
    (p.move c).vertexes_ ≠ [] := by
  simpa [Polygon.move] using h

theorem Polygon.scaleImpl_ne_nil (p : Polygon) (coef : ℚ) (h : p.vertexes_ ≠ []) :
    (p.scaleImpl coef).vertexes_ ≠ [] := by
  simpa [Polygon.scaleImpl] using h

theorem Polygon.ne_nil_of_wellFormed (p : Polygon) (h : 2 < p.n_) : p.vertexes_ ≠ [] := by
  intro e
  simp [Polygon.n_, e] at h

/-! ## The combined transform `userShape` -/

theorem userShapeStep_pos (s : Shape) (u : point_t) (c : ℚ) (hc : 0 < c) :
    userShapeStep s u c = (none, ((s.move u).scaleImpl c).move
      { x := u.x - (u.x - s.getFrameRect.pos.x) * c,
        y := u.y - (u.y - s.getFrameRect.pos.y) * c }) := by
  simp [userShapeStep, Shape.scale, not_le.mpr hc]

theorem userShape_pos (figures : List Shape) (u : point_t) (c : ℚ) (hc : 0 < c) :
    userShape figures u c = (none, figures.map (fun s => (userShapeStep s u c).2)) := by
  induction figures with
  | nil => rfl
  | cons s rest ih =>
    rw [userShape]
    simp only [userShapeStep_pos s u c hc, ih, List.map_cons]

theorem userShapeStep_rel (s : Shape) (u : point_t) (c : ℚ) (hc : 0 < c)
    (hs : s.wellFormed) : userShapeRel u c s (userShapeStep s u c).2 := by
  rw [userShapeStep_pos s u c hc]
  cases s with
  | rectangle r =>
    simp only [userShapeRel, Shape.move, Shape.scaleImpl, Shape.getFrameRect, Shape.pos_,
      Rectangle.move, Rectangle.scaleImpl, Rectangle.getFrameRect, scaledAbout]
    refine ⟨by ring, by ring, ?_, ?_⟩ <;> ext <;> simp <;> ring
  | rubber r =>
    simp only [userShapeRel, Shape.move, Shape.scaleImpl, Shape.getFrameRect, Shape.pos_,
      Rubber.move, Rubber.scaleImpl, Rubber.getFrameRect, scaledAbout]
    refine ⟨by ring, by ring, ?_, trivial⟩
    ext <;> simp <;> ring
  | polygon p =>
    have h0 : p.vertexes_ ≠ [] := p.ne_nil_of_wellFormed hs
    have h1 := (p.move u).scaleImpl_ne_nil c (p.move_ne_nil u h0)
    obtain ⟨a1, a2, a3, a4⟩ := p.getFrameRect_move u h0
    obtain ⟨b1, b2, b3, b4⟩ := (p.move u).getFrameRect_scaleImpl c hc.le (p.move_ne_nil u h0)
    obtain ⟨c1, c2, c3, c4⟩ := ((p.move u).scaleImpl c).getFrameRect_move
      { x := u.x - (u.x - p.getFrameRect.pos.x) * c,
        y := u.y - (u.y - p.getFrameRect.pos.y) * c } h1
    have hp : ((p.move u).scaleImpl c).pos_ = u := rfl
    have hq : (p.move u).pos_ = u := rfl
    simp only [userShapeRel, Shape.move, Shape.scaleImpl, Shape.getFrameRect, Shape.pos_,
      scaledAbout]
    refine ⟨by rw [c1, b1, a1], by rw [c2, b2, a2], ?_, ?_⟩
    · ext <;> simp [Polygon.move] <;> ring
    · ext
      · simp only [c3, b3, a3, hp, hq]; ring
      · simp only [c4, b4, a4, hp, hq]; ring

/-! ## Scaling -/

theorem Shape.scale_pos (s : Shape) (k : ℚ) (hk : 0 < k) : s.scale k = (none, s.scaleImpl k) := by
  simp [Shape.scale, not_le.mpr hk]

theorem Shape.scale_nonpos (s : Shape) (k : ℚ) (hk : k ≤ 0) :
    s.scale k = (some .invalid_argument, s) := by
  simp [Shape.scale, hk]

theorem Polygon.scaleImpl_scaleImpl_inv (p : Polygon) (k : ℚ) (hk : k ≠ 0) :
    (p.scaleImpl k).scaleImpl (1 / k) = p := by
  have hv : ∀ v : point_t,
      (⟨p.pos_.x + (p.pos_.x + (v.x - p.pos_.x) * k - p.pos_.x) * (1 / k),
        p.pos_.y + (p.pos_.y + (v.y - p.pos_.y) * k - p.pos_.y) * (1 / k)⟩ : point_t) = v := by
    intro v
    ext <;> simp <;> field_simp
  cases p with
  | mk pos vs =>
    simp only [Polygon.scaleImpl, List.map_map, Function.comp_def] at hv ⊢
    simp only [hv, List.map_id_fun', id_eq]

theorem Shape.scaleImpl_inv (s : Shape) (k : ℚ) (hk : k ≠ 0) :
    (s.scaleImpl k).scaleImpl (1 / k) = s := by
  cases s with
  | rectangle r =>
    cases r
    simp only [Shape.scaleImpl, Rectangle.scaleImpl, Shape.rectangle.injEq, Rectangle.mk.injEq,
      true_and]
    constructor <;> field_simp
  | rubber r =>
    cases r
    simp only [Shape.scaleImpl, Rubber.scaleImpl, Shape.rubber.injEq, Rubber.mk.injEq,
      true_and]
    constructor <;> field_simp
  | polygon p =>
    simp only [Shape.scaleImpl, Polygon.scaleImpl_scaleImpl_inv p k hk]

theorem Shape.scaleImpl_pos_ (s : Shape) (k : ℚ) : (s.scaleImpl k).pos_ = s.pos_ := by
  cases s <;> rfl

/-- The move of a polygon keeps the sizes of its bounding rectangle (also for an empty
vertex array). -/
theorem Polygon.getFrameRect_move_size (p : Polygon) (c : point_t) :
    (p.move c).getFrameRect.width = p.getFrameRect.width ∧
    (p.move c).getFrameRect.height = p.getFrameRect.height := by
  by_cases h : p.vertexes_ = []
  · simp [Polygon.move, Polygon.getFrameRect, h, vertexAt]
  · exact ⟨(p.getFrameRect_move c h).1, (p.getFrameRect_move c h).2.1⟩

theorem Shape.move_pos_ (s : Shape) (c : point_t) : (s.move c).pos_ = c := by
  cases s <;> rfl

theorem Shape.frame_move_size (s : Shape) (c : point_t) :
    (s.move c).getFrameRect.width = s.getFrameRect.width ∧
    (s.move c).getFrameRect.height = s.getFrameRect.height := by
  cases s with
  | rectangle r => exact ⟨rfl, rfl⟩
  | rubber r => exact ⟨rfl, rfl⟩
  | polygon p => exact p.getFrameRect_move_size c

theorem userShape_nonpos (s : Shape) (rest : List Shape) (u : point_t) (c : ℚ) (hc : c ≤ 0) :
    userShape (s :: rest) u c = (some .invalid_argument, s.move u :: rest) := by
  simp [userShape, userShapeStep, Shape.scale_nonpos _ c hc]

/-! ## The aggregate rectangle `fullFrame` -/

theorem fullFrameStep_fields (e : Extremes) (s : Shape) :
    (fullFrameStep e s).left = min e.left (s.getFrameRect.pos.x - s.getFrameRect.width * 0.5) ∧
    (fullFrameStep e s).right
      = max e.right (s.getFrameRect.pos.x + s.getFrameRect.width * 0.5) ∧
    (fullFrameStep e s).down
      = min e.down (s.getFrameRect.pos.y - s.getFrameRect.height * 0.5) ∧
    (fullFrameStep e s).up = max e.up (s.getFrameRect.pos.y + s.getFrameRect.height * 0.5) := by
  simp only [fullFrameStep, apply_ite Extremes.left, apply_ite Extremes.right,
    apply_ite Extremes.up, apply_ite Extremes.down, ite_self, min_def, max_def]
  refine ⟨?_, ?_, ?_, ?_⟩ <;> split_ifs <;> first | rfl | linarith

theorem foldl_fullFrameStep_fields (figures : List Shape) (e : Extremes) :
    (figures.foldl fullFrameStep e).left
      = (figures.map (fun s => s.getFrameRect.pos.x - s.getFrameRect.width * 0.5)).foldl min
          e.left ∧
    (figures.foldl fullFrameStep e).right
      = (figures.map (fun s => s.getFrameRect.pos.x + s.getFrameRect.width * 0.5)).foldl max
          e.right ∧
    (figures.foldl fullFrameStep e).down
      = (figures.map (fun s => s.getFrameRect.pos.y - s.getFrameRect.height * 0.5)).foldl min
          e.down ∧
    (figures.foldl fullFrameStep e).up
      = (figures.map (fun s => s.getFrameRect.pos.y + s.getFrameRect.height * 0.5)).foldl max
          e.up := by
  induction figures generalizing e with
  | nil => simp
  | cons s rest ih =>
    obtain ⟨h1, h2, h3, h4⟩ := fullFrameStep_fields e s
    obtain ⟨i1, i2, i3, i4⟩ := ih (fullFrameStep e s)
    simp only [List.foldl_cons, List.map_cons]
    rw [i1, i2, i3, i4, h1, h2, h3, h4]
    exact ⟨rfl, rfl, rfl, rfl⟩

/-- The edges of the rectangle returned by `fullFrame` are the four running extremes. -/
theorem fullFrame_edges (figures : List Shape) :
    (fullFrame figures).pos.x - (fullFrame figures).width / 2
      = (figures.map (fun s => s.getFrameRect.pos.x - s.getFrameRect.width * 0.5)).foldl min
          0 ∧
    (fullFrame figures).pos.x + (fullFrame figures).width / 2
      = (figures.map (fun s => s.getFrameRect.pos.x + s.getFrameRect.width * 0.5)).foldl max
          0 ∧
    (fullFrame figures).pos.y - (fullFrame figures).height / 2
      = (figures.map (fun s => s.getFrameRect.pos.y - s.getFrameRect.height * 0.5)).foldl min
          0 ∧
    (fullFrame figures).pos.y + (fullFrame figures).height / 2
      = (figures.map (fun s => s.getFrameRect.pos.y + s.getFrameRect.height * 0.5)).foldl max
          0 := by
  obtain ⟨h1, h2, h3, h4⟩ :=
    foldl_fullFrameStep_fields figures { left := 0, right := 0, up := 0, down := 0 }
  simp only [fullFrame, h1, h2, h3, h4]
  refine ⟨?_, ?_, ?_, ?_⟩ <;> norm_num <;> ring

/-- The bounding rectangle of a well-formed figure has non-negative sizes. -/
theorem Shape.getFrameRect_nonneg (s : Shape) (h : s.wellFormed) :
    0 ≤ s.getFrameRect.width ∧ 0 ≤ s.getFrameRect.height := by
  cases s with
  | rectangle r => exact ⟨h.1.le, h.2.le⟩
  | rubber r =>
    have := h.1
    simp only [Shape.getFrameRect, Rubber.getFrameRect]
    constructor <;> linarith
  | polygon p =>
    obtain ⟨f1, f2, _, _⟩ := p.getFrameRect_fields
    simp only [Shape.getFrameRect, f1, f2]
    constructor
    · linarith [foldl_min_le_init (p.vertexes_.map point_t.x) (vertexAt p.vertexes_ 0).x,
        le_foldl_max_init (p.vertexes_.map point_t.x) (vertexAt p.vertexes_ 0).x]
    · linarith [foldl_min_le_init (p.vertexes_.map point_t.y) (vertexAt p.vertexes_ 0).y,
        le_foldl_max_init (p.vertexes_.map point_t.y) (vertexAt p.vertexes_ 0).y]

/-- The constant `M_PI` agrees with the real number π to fifteen decimals. -/
theorem M_PI_near_pi : |((M_PI : ℚ) : ℝ) - Real.pi| < 1 / 10 ^ 15 := by
  have h1 := Real.pi_gt_d20
  have h2 := Real.pi_lt_d20
  rw [abs_lt, M_PI]
  push_cast
  constructor <;> norm_num at h1 h2 ⊢ <;> linarith

/-- The bounding rectangles of the figures of `main`. -/
theorem startupList_getFrameRect :
    startupList.map Shape.getFrameRect
      = [{ pos := ⟨3, 3⟩, width := 8, height := 5 },
         { pos := ⟨-5, 0⟩, width := 18, height := 18 },
         { pos := ⟨-1.85, 2.3⟩, width := 10.9, height := 14 }] := by
  norm_num [startupList, startupRectangle, startupRubber, startupPolygon, Shape.getFrameRect,
    Rectangle.getFrameRect, Rubber.getFrameRect, Polygon.getFrameRect, builtinVertexes, vertexAt,
    frameStep]

/-! ## The centroid helper `polyPos` -/

/-- The result of `polyPos` in terms of the shoelace signed area and centroid. -/
theorem polyPos_eq (pos : point_t) (n : ℕ) (vertexes : List point_t) :
    polyPos pos n vertexes
      = if n < 3 ∨ shoelaceSignedArea n vertexes = 0 then (1, pos)
        else (0, shoelaceCentroid n vertexes) := by
  have e : ∀ t : ℚ, t * 0.5 = t / 2 := fun t => by norm_num; ring
  simp only [polyPos, forLoop_add, zero_add, e, shoelaceCentroid, shoelaceSignedArea]
  by_cases h1 : n < 3
  · simp [h1]
  · by_cases h2 : (∑ i in Finset.range n,
        ((vertexAt vertexes i).x * (vertexAt vertexes ((i + 1) % n)).y
          - (vertexAt vertexes ((i + 1) % n)).x * (vertexAt vertexes i).y)) / 2 = 0
    · simp only [h1, h2, if_false, ne_eq, not_true_eq_false, or_true, if_true]
    · simp only [h1, h2, if_false, ne_eq, not_false_eq_true, if_true, or_self]

/-! ## Moves by a displacement -/

theorem Polygon.moveBy_vertexes (p : Polygon) (d_x d_y : ℚ) :
    (p.moveBy d_x d_y).vertexes_ = p.vertexes_.map
      (fun v => ⟨1 * v.x + d_x, 1 * v.y + d_y⟩) := by
  simp [Polygon.moveBy]

theorem Polygon.move_eq_moveBy (p : Polygon) (c : point_t) :
    p.move c = p.moveBy (c.x - p.pos_.x) (c.y - p.pos_.y) := by
  simp only [Polygon.move, Polygon.moveBy, Polygon.mk.injEq, and_true]
  ext <;> simp

theorem Polygon.getFrameRect_moveBy (p : Polygon) (d_x d_y : ℚ) (h : p.vertexes_ ≠ []) :
    (p.moveBy d_x d_y).getFrameRect.width = p.getFrameRect.width ∧
    (p.moveBy d_x d_y).getFrameRect.height = p.getFrameRect.height ∧
    (p.moveBy d_x d_y).getFrameRect.pos.x = p.getFrameRect.pos.x + d_x ∧
    (p.moveBy d_x d_y).getFrameRect.pos.y = p.getFrameRect.pos.y + d_y := by
  have e : p.moveBy d_x d_y = ⟨⟨p.pos_.x + d_x, p.pos_.y + d_y⟩, p.vertexes_.map
      (fun v => ⟨1 * v.x + d_x, 1 * v.y + d_y⟩)⟩ := by
    rw [← Polygon.moveBy_vertexes]; rfl
  obtain ⟨h1, h2, h3, h4⟩ := Polygon.getFrameRect_affine
    (fun v => ⟨1 * v.x + d_x, 1 * v.y + d_y⟩) 1 d_x d_y zero_le_one (fun _ => rfl)
    (fun _ => rfl) p.pos_ ⟨p.pos_.x + d_x, p.pos_.y + d_y⟩ p.vertexes_ h
  rw [e, h1, h2, h3, h4]
  simp

/-! ## The sign of the area of a `Rubber` -/

theorem M_PI_pos : 0 < M_PI := by norm_num [M_PI]

theorem rubber_area_sign (r R : ℚ) (hr : 0 < r) (hR : 0 < R) :
    0 ≤ M_PI * R * R - M_PI * r * r ↔ r ≤ R := by
  have hpi := M_PI_pos
  have e : M_PI * R * R - M_PI * r * r = (M_PI * (R + r)) * (R - r) := by ring
  have hp : 0 < M_PI * (R + r) := mul_pos hpi (by linarith)
  rw [e]
  constructor
  · intro h
    have := nonneg_of_mul_nonneg_right h hp
    linarith
  · intro h
    exact mul_nonneg hp.le (by linarith)

/-! ## The closed form of `fullFrame` -/

theorem fullFrame_eq (figures : List Shape) :
    fullFrame figures
      = { width := ((figures.map Shape.getFrameRect).map
              (fun r => r.pos.x + r.width / 2)).foldl max 0
            - ((figures.map Shape.getFrameRect).map
              (fun r => r.pos.x - r.width / 2)).foldl min 0,
          height := ((figures.map Shape.getFrameRect).map
              (fun r => r.pos.y + r.height / 2)).foldl max 0
            - ((figures.map Shape.getFrameRect).map
              (fun r => r.pos.y - r.height / 2)).foldl min 0,
          pos := ⟨(((figures.map Shape.getFrameRect).map
              (fun r => r.pos.x - r.width / 2)).foldl min 0
            + ((figures.map Shape.getFrameRect).map
              (fun r => r.pos.x + r.width / 2)).foldl max 0) / 2,
            (((figures.map Shape.getFrameRect).map
              (fun r => r.pos.y - r.height / 2)).foldl min 0
            + ((figures.map Shape.getFrameRect).map
              (fun r => r.pos.y + r.height / 2)).foldl max 0) / 2⟩ } := by
  have half : ∀ t : ℚ, t * 0.5 = t / 2 := fun t => by norm_num; ring
  obtain ⟨h1, h2, h3, h4⟩ :=
    foldl_fullFrameStep_fields figures { left := 0, right := 0, up := 0, down := 0 }
  simp only [half] at h1 h2 h3 h4
  simp only [fullFrame, half, h1, h2, h3, h4, rectangle_t.mk.injEq, point_t.mk.injEq,
    List.map_map, Function.comp_def, true_and]
  refine ⟨?_, ?_⟩ <;> ring

theorem startupList_fullFrame :
    fullFrame startupList = { width := 21, height := 18.3, pos := ⟨-3.5, 0.15⟩ } := by
  rw [fullFrame_eq, startupList_getFrameRect]
  norm_num [List.foldl]

/-! ## The shoelace sums of `polyPos` under an affine map -/

/-- A sum over the cyclic successor `(i + 1) % (m + 1)` is an open sum and a closing term. -/
theorem sum_cyclic_succ (F : ℕ → ℕ → ℚ) (m : ℕ) :
    ∑ i in Finset.range (m + 1), F i ((i + 1) % (m + 1))
      = ∑ i in Finset.range m, F i (i + 1) + F m 0 := by
  rw [Finset.sum_range_succ, Nat.mod_self]
  congr 1
  refine Finset.sum_congr rfl (fun i hi => ?_)
  rw [Nat.mod_eq_of_lt (by have := Finset.mem_range.mp hi; omega)]

theorem cross_affine_open (X Y : ℕ → ℚ) (k a b : ℚ) (m : ℕ) :
    ∑ i in Finset.range m, ((k * X i + a) * (k * Y (i + 1) + b)
        - (k * X (i + 1) + a) * (k * Y i + b))
      = k ^ 2 * ∑ i in Finset.range m, (X i * Y (i + 1) - X (i + 1) * Y i)
        + k * b * (X 0 - X m) + k * a * (Y m - Y 0) := by
  induction m with
  | zero => simp
  | succ m ih => rw [Finset.sum_range_succ, Finset.sum_range_succ, ih]; ring

theorem centroid_x_affine_open (X Y : ℕ → ℚ) (k a b : ℚ) (m : ℕ) :
    ∑ i in Finset.range m, ((k * X i + a) + (k * X (i + 1) + a))
        * ((k * X i + a) * (k * Y (i + 1) + b) - (k * X (i + 1) + a) * (k * Y i + b))
      = k ^ 3 * ∑ i in Finset.range m, (X i + X (i + 1)) * (X i * Y (i + 1) - X (i + 1) * Y i)
        + 3 * a * k ^ 2 * ∑ i in Finset.range m, (X i * Y (i + 1) - X (i + 1) * Y i)
        + k ^ 2 * b * (X 0 ^ 2 - X m ^ 2) + k ^ 2 * a * (X m * Y m - X 0 * Y 0)
        + 2 * a * k * b * (X 0 - X m) + 2 * a ^ 2 * k * (Y m - Y 0) := by
  induction m with
  | zero => simp
  | succ m ih =>
    rw [Finset.sum_range_succ, Finset.sum_range_succ, Finset.sum_range_succ, ih]; ring

theorem centroid_y_affine_open (X Y : ℕ → ℚ) (k a b : ℚ) (m : ℕ) :
    ∑ i in Finset.range m, ((k * Y i + b) + (k * Y (i + 1) + b))
        * ((k * X i + a) * (k * Y (i + 1) + b) - (k * X (i + 1) + a) * (k * Y i + b))
      = k ^ 3 * ∑ i in Finset.range m, (Y i + Y (i + 1)) * (X i * Y (i + 1) - X (i + 1) * Y i)
        + 3 * b * k ^ 2 * ∑ i in Finset.range m, (X i * Y (i + 1) - X (i + 1) * Y i)
        + k ^ 2 * b * (X 0 * Y 0 - X m * Y m) + k ^ 2 * a * (Y m ^ 2 - Y 0 ^ 2)
        + 2 * b ^ 2 * k * (X 0 - X m) + 2 * a * b * k * (Y m - Y 0) := by
  induction m with
  | zero => simp
  | succ m ih =>
    rw [Finset.sum_range_succ, Finset.sum_range_succ, Finset.sum_range_succ, ih]; ring

/-- The three cyclic sums of `polyPos` over the image of a vertex array under a map that is
affine in each coordinate with the same factor. -/
theorem shoelace_sums_affine (g : point_t → point_t) (k a b : ℚ)
    (hx : ∀ v, (g v).x = k * v.x + a) (hy : ∀ v, (g v).y = k * v.y + b)
    (vs : List point_t) (h : vs ≠ []) :
    (∑ i in Finset.range vs.length,
        ((vertexAt (vs.map g) i).x * (vertexAt (vs.map g) ((i + 1) % vs.length)).y
          - (vertexAt (vs.map g) ((i + 1) % vs.length)).x * (vertexAt (vs.map g) i).y)
      = k ^ 2 * ∑ i in Finset.range vs.length,
        ((vertexAt vs i).x * (vertexAt vs ((i + 1) % vs.length)).y
          - (vertexAt vs ((i + 1) % vs.length)).x * (vertexAt vs i).y)) ∧
    (∑ i in Finset.range vs.length,
        ((vertexAt (vs.map g) i).x + (vertexAt (vs.map g) ((i + 1) % vs.length)).x)
          * ((vertexAt (vs.map g) i).x * (vertexAt (vs.map g) ((i + 1) % vs.length)).y
            - (vertexAt (vs.map g) ((i + 1) % vs.length)).x * (vertexAt (vs.map g) i).y)
      = k ^ 3 * (∑ i in Finset.range vs.length,
          ((vertexAt vs i).x + (vertexAt vs ((i + 1) % vs.length)).x)
            * ((vertexAt vs i).x * (vertexAt vs ((i + 1) % vs.length)).y
              - (vertexAt vs ((i + 1) % vs.length)).x * (vertexAt vs i).y))
        + 3 * a * k ^ 2 * ∑ i in Finset.range vs.length,
          ((vertexAt vs i).x * (vertexAt vs ((i + 1) % vs.length)).y
            - (vertexAt vs ((i + 1) % vs.length)).x * (vertexAt vs i).y)) ∧
    (∑ i in Finset.range vs.length,
        ((vertexAt (vs.map g) i).y + (vertexAt (vs.map g) ((i + 1) % vs.length)).y)
          * ((vertexAt (vs.map g) i).x * (vertexAt (vs.map g) ((i + 1) % vs.length)).y
            - (vertexAt (vs.map g) ((i + 1) % vs.length)).x * (vertexAt (vs.map g) i).y)
      = k ^ 3 * (∑ i in Finset.range vs.length,
          ((vertexAt vs i).y + (vertexAt vs ((i + 1) % vs.length)).y)
            * ((vertexAt vs i).x * (vertexAt vs ((i + 1) % vs.length)).y
              - (vertexAt vs ((i + 1) % vs.length)).x * (vertexAt vs i).y))
        + 3 * b * k ^ 2 * ∑ i in Finset.range vs.length,
          ((vertexAt vs i).x * (vertexAt vs ((i + 1) % vs.length)).y
            - (vertexAt vs ((i + 1) % vs.length)).x * (vertexAt vs i).y)) := by
  obtain ⟨m, hm⟩ : ∃ m, vs.length = m + 1 :=
    ⟨vs.length - 1, by have := List.length_pos.mpr h; omega⟩
  have hg : ∀ i, i < m + 1 → vertexAt (vs.map g) i = g (vertexAt vs i) :=
    fun i hi => vertexAt_map g vs i (by omega)
  have hmod : ∀ i, (i + 1) % (m + 1) < m + 1 := fun i => Nat.mod_lt _ (by omega)
  have e1 : ∀ F : point_t → point_t → ℚ,
      ∑ i in Finset.range (m + 1),
          F (vertexAt (vs.map g) i) (vertexAt (vs.map g) ((i + 1) % (m + 1)))
        = ∑ i in Finset.range m, F (g (vertexAt vs i)) (g (vertexAt vs (i + 1)))
          + F (g (vertexAt vs m)) (g (vertexAt vs 0)) := by
    intro F
    rw [← sum_cyclic_succ (fun i j => F (g (vertexAt vs i)) (g (vertexAt vs j))) m]
    refine Finset.sum_congr rfl (fun i hi => ?_)
    rw [hg i (Finset.mem_range.mp hi), hg _ (hmod i)]
  have e2 : ∀ F : point_t → point_t → ℚ,
      ∑ i in Finset.range (m + 1), F (vertexAt vs i) (vertexAt vs ((i + 1) % (m + 1)))
        = ∑ i in Finset.range m, F (vertexAt vs i) (vertexAt vs (i + 1))
          + F (vertexAt vs m) (vertexAt vs 0) :=
    fun F => sum_cyclic_succ (fun i j => F (vertexAt vs i) (vertexAt vs j)) m
  have c0 := cross_affine_open (fun i => (vertexAt vs i).x) (fun i => (vertexAt vs i).y) k a b m
  have cx := centroid_x_affine_open (fun i => (vertexAt vs i).x) (fun i => (vertexAt vs i).y)
    k a b m
  have cy := centroid_y_affine_open (fun i => (vertexAt vs i).x) (fun i => (vertexAt vs i).y)
    k a b m
  simp only at c0 cx cy
  rw [hm]
  refine ⟨?_, ?_, ?_⟩
  · rw [e1 (fun u w => u.x * w.y - w.x * u.y), e2 (fun u w => u.x * w.y - w.x * u.y)]
    simp only [hx, hy]
    rw [c0]; ring
  · rw [e1 (fun u w => (u.x + w.x) * (u.x * w.y - w.x * u.y)),
      e2 (fun u w => (u.x + w.x) * (u.x * w.y - w.x * u.y)),
      e2 (fun u w => u.x * w.y - w.x * u.y)]
    simp only [hx, hy]
    rw [cx]; ring
  · rw [e1 (fun u w => (u.y + w.y) * (u.x * w.y - w.x * u.y)),
      e2 (fun u w => (u.y + w.y) * (u.x * w.y - w.x * u.y)),
      e2 (fun u w => u.x * w.y - w.x * u.y)]
    simp only [hx, hy]
    rw [cy]; ring

theorem centroid_affine_alg (k a S0 S1 : ℚ) (hk : k ≠ 0) (hS : S0 ≠ 0) :
    (k ^ 3 * S1 + 3 * a * k ^ 2 * S0) / (6 * (k ^ 2 * S0 / 2))
      = k * (S1 / (6 * (S0 / 2))) + a := by
  field_simp
  ring

/-- The signed area and the centroid of the image of a vertex array under a map that is
affine in each coordinate with the same non-zero factor. -/
theorem shoelace_affine_inv (g : point_t → point_t) (k a b : ℚ) (hk : k ≠ 0)
    (hx : ∀ v, (g v).x = k * v.x + a) (hy : ∀ v, (g v).y = k * v.y + b)
    (vs : List point_t) (h : vs ≠ []) (hA : shoelaceSignedArea vs.length vs ≠ 0) :
    shoelaceSignedArea vs.length (vs.map g) = k ^ 2 * shoelaceSignedArea vs.length vs ∧
    shoelaceCentroid vs.length (vs.map g)
      = ⟨k * (shoelaceCentroid vs.length vs).x + a,
          k * (shoelaceCentroid vs.length vs).y + b⟩ := by
  obtain ⟨s0, sx, sy⟩ := shoelace_sums_affine g k a b hx hy vs h
  have hA2 : (∑ i in Finset.range vs.length,
      ((vertexAt vs i).x * (vertexAt vs ((i + 1) % vs.length)).y
        - (vertexAt vs ((i + 1) % vs.length)).x * (vertexAt vs i).y)) ≠ 0 := by
    intro e
    apply hA
    simp [shoelaceSignedArea, e]
  have hk2 : k ^ 2 ≠ 0 := pow_ne_zero 2 hk
  refine ⟨?_, ?_⟩
  · simp only [shoelaceSignedArea, s0]; ring
  · simp only [shoelaceCentroid, shoelaceSignedArea, s0, sx, sy]
    ext
    · exact centroid_affine_alg k a _ _ hk hA2
    · exact centroid_affine_alg k b _ _ hk hA2

/-! ## What the constructors establish and the methods keep -/

theorem Rectangle.ctor_guard (pos : point_t) (width height : ℚ) (r : Rectangle)
    (h : Rectangle.ctor pos width height = .ok r) : 0 < r.width_ ∧ 0 < r.height_ := by
  unfold Rectangle.ctor at h
  split_ifs at h with hc
  injection h with h
  subst h
  push_neg at hc
  exact hc

theorem Rubber.ctor_radii (pos outCenter : point_t) (rPos rOut : ℚ) (r : Rubber)
    (h : Rubber.ctor pos outCenter rPos rOut = .ok r) : 0 < r.rOut_ ∧ 0 < r.rPos_ := by
  unfold Rubber.ctor at h
  split_ifs at h with hc
  injection h with h
  subst h
  push_neg at hc
  exact hc

theorem Shape.wellFormed_move (s : Shape) (c : point_t) (h : s.wellFormed) :
    (s.move c).wellFormed := by
  cases s with
  | rectangle r => exact h
  | rubber r => exact h
  | polygon p => simpa [Shape.wellFormed, Shape.move, Polygon.move, Polygon.n_] using h

theorem Shape.wellFormed_moveBy (s : Shape) (d_x d_y : ℚ) (h : s.wellFormed) :
    (s.moveBy d_x d_y).wellFormed := by
  cases s with
  | rectangle r => exact h
  | rubber r => exact h
  | polygon p => simpa [Shape.wellFormed, Shape.moveBy, Polygon.moveBy, Polygon.n_] using h

theorem Shape.wellFormed_scaleImpl (s : Shape) (k : ℚ) (hk : 0 < k) (h : s.wellFormed) :
    (s.scaleImpl k).wellFormed := by
  cases s with
  | rectangle r => exact ⟨mul_pos h.1 hk, mul_pos h.2 hk⟩
  | rubber r => exact ⟨mul_pos h.1 hk, mul_pos h.2 hk⟩
  | polygon p => simpa [Shape.wellFormed, Shape.scaleImpl, Polygon.scaleImpl, Polygon.n_] using h

/-! ## The invariant of a polygon -/

theorem Polygon.centred_affine (p q : Polygon) (hp : p.centred) (g : point_t → point_t)
    (k a b : ℚ) (hk : k ≠ 0) (hx : ∀ v, (g v).x = k * v.x + a)
    (hy : ∀ v, (g v).y = k * v.y + b) (hv : q.vertexes_ = p.vertexes_.map g)
    (hpos : q.pos_ = ⟨k * p.pos_.x + a, k * p.pos_.y + b⟩) : q.centred := by
  obtain ⟨h2, hA, hC⟩ := hp
  have hn : q.n_ = p.n_ := by simp [Polygon.n_, hv]
  obtain ⟨e1, e2⟩ := shoelace_affine_inv g k a b hk hx hy p.vertexes_
    (p.ne_nil_of_wellFormed h2) hA
  have hl : p.vertexes_.length = p.n_ := rfl
  rw [hl] at e1 e2
  refine ⟨by omega, ?_, ?_⟩
  · rw [hn, hv, e1]
    exact mul_ne_zero (pow_ne_zero 2 hk) hA
  · rw [hn, hv, e2, hpos, ← hC]

theorem Polygon.centred_move (p : Polygon) (c : point_t) (hp : p.centred) :
    (p.move c).centred := by
  refine Polygon.centred_affine p (p.move c) hp
    (fun v => ⟨1 * v.x + (c.x - p.pos_.x), 1 * v.y + (c.y - p.pos_.y)⟩) 1
    (c.x - p.pos_.x) (c.y - p.pos_.y) one_ne_zero (fun _ => rfl) (fun _ => rfl)
    (p.move_vertexes c) ?_
  ext <;> simp [Polygon.move]

theorem Polygon.centred_moveBy (p : Polygon) (d_x d_y : ℚ) (hp : p.centred) :
    (p.moveBy d_x d_y).centred := by
  refine Polygon.centred_affine p (p.moveBy d_x d_y) hp
    (fun v => ⟨1 * v.x + d_x, 1 * v.y + d_y⟩) 1 d_x d_y one_ne_zero (fun _ => rfl)
    (fun _ => rfl) (p.moveBy_vertexes d_x d_y) ?_
  ext <;> simp [Polygon.moveBy]

theorem Polygon.centred_scaleImpl (p : Polygon) (k : ℚ) (hk : k ≠ 0) (hp : p.centred) :
    (p.scaleImpl k).centred := by
  refine Polygon.centred_affine p (p.scaleImpl k) hp
    (fun v => ⟨k * v.x + (p.pos_.x - k * p.pos_.x), k * v.y + (p.pos_.y - k * p.pos_.y)⟩) k
    (p.pos_.x - k * p.pos_.x) (p.pos_.y - k * p.pos_.y) hk (fun _ => rfl) (fun _ => rfl)
    (p.scaleImpl_vertexes k) ?_
  ext <;> simp [Polygon.scaleImpl]

/-! ## The constructor of `Polygon` for every count -/

theorem padded_vertexAt_lt (j i : ℕ) (hi : i < 7) :
    vertexAt (builtinVertexes ++ List.replicate j ⟨0, 0⟩) i = vertexAt builtinVertexes i := by
  unfold vertexAt
  exact List.getD_append _ _ _ _ hi

theorem padded_vertexAt_ge (j i : ℕ) (hi : 7 ≤ i) :
    vertexAt (builtinVertexes ++ List.replicate j ⟨0, 0⟩) i = ⟨0, 0⟩ := by
  unfold vertexAt
  rw [List.getD_append_right _ _ _ _ hi, List.getD_eq_getElem?_getD]
  simp

/-- A cyclic sum over the padded array, for a summand that vanishes when one of the two
vertices is the origin, only sees the six edges between the built-in vertices. -/
theorem padded_cyclic_sum (F : point_t → point_t → ℚ) (hF0 : ∀ w, F ⟨0, 0⟩ w = 0)
    (hF1 : ∀ u, F u ⟨0, 0⟩ = 0) (m : ℕ) (hm : 8 ≤ m) :
    ∑ i in Finset.range m,
        F (vertexAt (builtinVertexes ++ List.replicate (m - 7) ⟨0, 0⟩) i)
          (vertexAt (builtinVertexes ++ List.replicate (m - 7) ⟨0, 0⟩) ((i + 1) % m))
      = ∑ i in Finset.range 6, F (vertexAt builtinVertexes i) (vertexAt builtinVertexes (i + 1)) := by
  obtain ⟨j, rfl⟩ : ∃ j, m = 7 + j := ⟨m - 7, by omega⟩
  rw [Finset.sum_range_add, Finset.sum_range_succ _ 6]
  have z1 : ∑ x in Finset.range j,
      F (vertexAt (builtinVertexes ++ List.replicate (7 + j - 7) ⟨0, 0⟩) (7 + x))
        (vertexAt (builtinVertexes ++ List.replicate (7 + j - 7) ⟨0, 0⟩)
          ((7 + x + 1) % (7 + j))) = 0 := by
    refine Finset.sum_eq_zero (fun x _ => ?_)
    rw [padded_vertexAt_ge _ _ (by omega), hF0]
  have z2 : F (vertexAt (builtinVertexes ++ List.replicate (7 + j - 7) ⟨0, 0⟩) 6)
      (vertexAt (builtinVertexes ++ List.replicate (7 + j - 7) ⟨0, 0⟩) ((6 + 1) % (7 + j)))
      = 0 := by
    rw [Nat.mod_eq_of_lt (by omega), padded_vertexAt_ge _ (6 + 1) (by omega), hF1]
  rw [z1, z2, add_zero, add_zero]
  refine Finset.sum_congr rfl (fun i hi => ?_)
  have hi6 : i < 6 := Finset.mem_range.mp hi
  rw [Nat.mod_eq_of_lt (by omega), padded_vertexAt_lt _ _ (by omega),
    padded_vertexAt_lt _ _ (by omega)]

theorem padded_signedArea (m : ℕ) (hm : 8 ≤ m) :
    shoelaceSignedArea m (builtinVertexes ++ List.replicate (m - 7) ⟨0, 0⟩) = -388 / 25 := by
  unfold shoelaceSignedArea
  rw [padded_cyclic_sum (fun u w => u.x * w.y - w.x * u.y) (by intro w; simp)
    (by intro u; simp) m hm]
  norm_num [Finset.sum_range_succ, builtinVertexes, vertexAt]

theorem padded_centroid (m : ℕ) (hm : 8 ≤ m) :
    shoelaceCentroid m (builtinVertexes ++ List.replicate (m - 7) ⟨0, 0⟩)
      = ⟨-381137 / 93120, 12961 / 11640⟩ := by
  unfold shoelaceCentroid
  rw [padded_signedArea m hm,
    padded_cyclic_sum (fun u w => (u.x + w.x) * (u.x * w.y - w.x * u.y)) (by intro w; simp)
      (by intro u; simp) m hm,
    padded_cyclic_sum (fun u w => (u.y + w.y) * (u.x * w.y - w.x * u.y)) (by intro w; simp)
      (by intro u; simp) m hm]
  norm_num [Finset.sum_range_succ, builtinVertexes, vertexAt]

theorem builtin_signedArea : shoelaceSignedArea 7 builtinVertexes = -521 / 50 := by
  norm_num [shoelaceSignedArea, Finset.sum_range_succ, builtinVertexes, vertexAt]

/-! ## The value of `Polygon::getArea` -/

/-- The truncating `abs` at an argument in `(−(m + 1), −m]`. -/
theorem intAbs_eq_of_nonpos (x : ℚ) (m : ℕ) (h1 : -((m : ℚ) + 1) < x) (h2 : x ≤ -(m : ℚ)) :
    intAbs x = m := by
  unfold intAbs toInt
  split_ifs with h0
  · have hm : (m : ℚ) = 0 := by
      have : (0 : ℚ) ≤ (m : ℚ) := Nat.cast_nonneg m
      linarith
    have hx : x = 0 := by linarith
    subst hx
    simp [hm]
  · have hc : ⌈x⌉ = -(m : ℤ) := by
      rw [Int.ceil_eq_iff]
      push_cast
      constructor <;> linarith
    rw [hc]
    simp

/-- The value computed by `Polygon::getArea`, with the two accumulators as one sum. -/
theorem Polygon.getArea_eq (p : Polygon) :
    p.getArea = 0.5 * intAbs ((∑ i in Finset.range (p.n_ - 1),
        ((vertexAt p.vertexes_ i).x * (vertexAt p.vertexes_ (i + 1)).y
          - (vertexAt p.vertexes_ i).y * (vertexAt p.vertexes_ (i + 1)).x))
      + ((vertexAt p.vertexes_ (p.n_ - 1)).x * (vertexAt p.vertexes_ 0).y
          - (vertexAt p.vertexes_ (p.n_ - 1)).y * (vertexAt p.vertexes_ 0).x)) := by
  unfold Polygon.getArea
  rw [forLoop_add_pair]
  simp only [Finset.sum_sub_distrib, zero_add]
  congr 2
  ring

/-- The value computed by `Polygon::getArea` is half the truncated absolute value of
`buf1 − buf2`, and `buf1 − buf2` is twice the cyclic shoelace signed area. -/
theorem Polygon.getArea_signed (p : Polygon) :
    p.getArea = 0.5 * intAbs (2 * shoelaceSignedArea p.n_ p.vertexes_) := by
  have key : (∑ i in Finset.range (p.n_ - 1),
        ((vertexAt p.vertexes_ i).x * (vertexAt p.vertexes_ (i + 1)).y
          - (vertexAt p.vertexes_ i).y * (vertexAt p.vertexes_ (i + 1)).x))
      + ((vertexAt p.vertexes_ (p.n_ - 1)).x * (vertexAt p.vertexes_ 0).y
          - (vertexAt p.vertexes_ (p.n_ - 1)).y * (vertexAt p.vertexes_ 0).x)
      = 2 * shoelaceSignedArea p.n_ p.vertexes_ := by
    unfold shoelaceSignedArea
    rcases Nat.eq_zero_or_pos p.n_ with h | h
    · have hv : p.vertexes_ = [] := List.length_eq_zero.mp h
      simp [Polygon.n_, hv, vertexAt]
    · obtain ⟨m, hm⟩ : ∃ m, p.n_ = m + 1 := ⟨p.n_ - 1, by omega⟩
      rw [hm, Nat.add_sub_cancel,
        sum_cyclic_succ (fun i j => (vertexAt p.vertexes_ i).x * (vertexAt p.vertexes_ j).y
          - (vertexAt p.vertexes_ j).x * (vertexAt p.vertexes_ i).y) m]
      have e : ∑ i in Finset.range m,
          ((vertexAt p.vertexes_ i).x * (vertexAt p.vertexes_ (i + 1)).y
            - (vertexAt p.vertexes_ i).y * (vertexAt p.vertexes_ (i + 1)).x)
          = ∑ i in Finset.range m,
            ((vertexAt p.vertexes_ i).x * (vertexAt p.vertexes_ (i + 1)).y
              - (vertexAt p.vertexes_ (i + 1)).x * (vertexAt p.vertexes_ i).y) :=
        Finset.sum_congr rfl (fun i _ => by ring)
      rw [e]
      ring
  rw [Polygon.getArea_eq, key]

theorem shoelaceSignedArea_affine (g : point_t → point_t) (k a b : ℚ)
    (hx : ∀ v, (g v).x = k * v.x + a) (hy : ∀ v, (g v).y = k * v.y + b)
    (vs : List point_t) (h : vs ≠ []) :
    shoelaceSignedArea vs.length (vs.map g) = k ^ 2 * shoelaceSignedArea vs.length vs := by
  obtain ⟨s0, _, _⟩ := shoelace_sums_affine g k a b hx hy vs h
  simp only [shoelaceSignedArea, s0]
  ring

/-- A polygon and its image under a translation have the same `getArea`. -/
theorem Polygon.getArea_translate (p q : Polygon) (g : point_t → point_t) (a b : ℚ)
    (hx : ∀ v, (g v).x = 1 * v.x + a) (hy : ∀ v, (g v).y = 1 * v.y + b)
    (hv : q.vertexes_ = p.vertexes_.map g) : q.getArea = p.getArea := by
  have hn : q.n_ = p.n_ := by simp [Polygon.n_, hv]
  rw [Polygon.getArea_signed, Polygon.getArea_signed, hn, hv]
  by_cases h : p.vertexes_ = []
  · rw [h]; rfl
  · have e := shoelaceSignedArea_affine g 1 a b hx hy p.vertexes_ h
    have hl : p.vertexes_.length = p.n_ := rfl
    rw [hl] at e
    rw [e]
    simp

theorem Polygon.getArea_move (p : Polygon) (c : point_t) : (p.move c).getArea = p.getArea :=
  Polygon.getArea_translate p (p.move c) _ (c.x - p.pos_.x) (c.y - p.pos_.y) (fun _ => rfl)
    (fun _ => rfl) (p.move_vertexes c)

theorem Polygon.getArea_moveBy (p : Polygon) (d_x d_y : ℚ) :
    (p.moveBy d_x d_y).getArea = p.getArea :=
  Polygon.getArea_translate p (p.moveBy d_x d_y) _ d_x d_y (fun _ => rfl) (fun _ => rfl)
    (p.moveBy_vertexes d_x d_y)

theorem Shape.area_move (s : Shape) (c : point_t) : (s.move c).getArea = s.getArea := by
  cases s with
  | rectangle r => rfl
  | rubber r => rfl
  | polygon p => exact p.getArea_move c

/-- The scaling of a polygon multiplies its cyclic shoelace signed area by the square of
the factor. -/
theorem Polygon.signedArea_scaleImpl (p : Polygon) (k : ℚ) (h : p.vertexes_ ≠ []) :
    shoelaceSignedArea (p.scaleImpl k).n_ (p.scaleImpl k).vertexes_
      = k ^ 2 * shoelaceSignedArea p.n_ p.vertexes_ := by
  have hn : (p.scaleImpl k).n_ = p.n_ := by simp [Polygon.n_, Polygon.scaleImpl]
  rw [hn, p.scaleImpl_vertexes k]
  exact shoelaceSignedArea_affine _ k _ _ (fun _ => rfl) (fun _ => rfl) p.vertexes_ h

/-- The scaling of a `Rectangle` multiplies its area by the square of the factor. -/
theorem Rectangle.box_area_scaled (r : Rectangle) (k : ℚ) :
    (r.scaleImpl k).getArea = k ^ 2 * r.getArea := by
  simp only [Rectangle.scaleImpl, Rectangle.getArea]; ring

/-- The scaling of a `Rubber` multiplies its area by the square of the factor. -/
theorem Rubber.ring_area_scaled (r : Rubber) (k : ℚ) :
    (r.scaleImpl k).getArea = k ^ 2 * r.getArea := by
  simp only [Rubber.scaleImpl, Rubber.getArea]; ring

theorem startupPolygon_signedArea :
    shoelaceSignedArea startupPolygon.n_ startupPolygon.vertexes_ = -10.42 := by
  have h : startupPolygon.n_ = 7 := rfl
  rw [h]
  simp only [startupPolygon, builtin_signedArea]
  norm_num

theorem startupPolygon_getArea : startupPolygon.getArea = 10 := by
  rw [Polygon.getArea_signed, startupPolygon_signedArea,
    intAbs_eq_of_nonpos _ 20 (by norm_num) (by norm_num)]
  norm_num

/-! ## The constructor of `Polygon` and the free store -/

theorem maxArrayLength_eq : maxArrayLength = 2 ^ 59 - 1 := by
  norm_num [maxArrayLength]

theorem newVertexes_ok (available n : ℕ) (vs : List point_t)
    (h : newVertexes available n = .ok vs) :
    7 ≤ n ∧ n ≤ maxArrayLength ∧ n ≤ available ∧
    vs = builtinVertexes ++ List.replicate (n - 7) ⟨0, 0⟩ := by
  unfold newVertexes at h
  have hl : builtinVertexes.length = 7 := rfl
  rw [hl] at h
  split_ifs at h with hc
  injection h with h
  push_neg at hc
  exact ⟨hc.1, hc.2.1, hc.2.2, h.symm⟩

theorem newVertexes_eq_ok (available n : ℕ) (h7 : 7 ≤ n) (hmax : n ≤ maxArrayLength)
    (hav : n ≤ available) :
    newVertexes available n = .ok (builtinVertexes ++ List.replicate (n - 7) ⟨0, 0⟩) := by
  have hl : builtinVertexes.length = 7 := rfl
  have hc : ¬ (n < 7 ∨ maxArrayLength < n ∨ available < n) := by omega
  simp only [newVertexes, hl, hc, if_false]

theorem newVertexes_eq_error (available n : ℕ)
    (h : n < 7 ∨ maxArrayLength < n ∨ available < n) :
    newVertexes available n = .error .bad_alloc := by
  have hl : builtinVertexes.length = 7 := rfl
  simp only [newVertexes, hl, h, if_true]

theorem Polygon.ctor_ok (available : ℕ) (vertexes : List point_t) (n : ℕ) (p : Polygon)
    (h : Polygon.ctor available vertexes n = .ok p) :
    7 ≤ n ∧ n ≤ maxArrayLength ∧ n ≤ available ∧
    p.vertexes_ = builtinVertexes ++ List.replicate (n - 7) ⟨0, 0⟩ ∧ p.n_ = n ∧
    shoelaceSignedArea n p.vertexes_ ≠ 0 ∧ p.pos_ = shoelaceCentroid n p.vertexes_ := by
  unfold Polygon.ctor at h
  split_ifs at h with h2
  cases hv : newVertexes available n with
  | error e => rw [hv] at h; simp at h
  | ok vs =>
    obtain ⟨h7, hmax, hav, e⟩ := newVertexes_ok available n vs hv
    rw [hv] at h
    simp only [polyPos_eq] at h
    have h3 : ¬ n < 3 := by omega
    by_cases hA : shoelaceSignedArea n vs = 0
    · simp [h3, hA] at h
    · simp only [h3, hA, or_self, if_false] at h
      norm_num at h
      subst h
      refine ⟨h7, hmax, hav, e, ?_, hA, rfl⟩
      simp only [Polygon.n_, e, List.length_append, List.length_replicate]
      have hl : builtinVertexes.length = 7 := rfl
      omega

/-- The constructor run on the request of `main` (seven vertices), when the free store can
supply seven cells. -/
theorem Polygon.ctor_seven (available : ℕ) (vertexes : List point_t) (hav : 7 ≤ available) :
    Polygon.ctor available vertexes 7 = .ok startupPolygon := by
  have hmax : 7 ≤ maxArrayLength := by norm_num [maxArrayLength]
  have e := newVertexes_eq_ok available 7 le_rfl hmax hav
  simp only [Polygon.ctor, e]
  norm_num [polyPos, forLoop, range_seven, builtinVertexes, vertexAt, startupPolygon]

theorem startupFigures_eq (available : ℕ) (hav : 7 ≤ available) :
    startupFigures available = .ok startupList := by
  have h1 : Rectangle.ctor ⟨3, 3⟩ 8 5 = .ok startupRectangle := by
    norm_num [Rectangle.ctor, startupRectangle]
  have h2 : Rubber.ctor ⟨-7, -2⟩ ⟨-5, 0⟩ 3.5 9 = .ok startupRubber := by
    norm_num [Rubber.ctor, startupRubber]
  simp only [startupFigures, h1, h2, Polygon.ctor_seven available [] hav]
  rfl

/-- The constructor for a count above seven that the free store can supply. -/
theorem Polygon.ctor_large (available : ℕ) (vertexes : List point_t) (m : ℕ) (hm : 8 ≤ m)
    (hmax : m ≤ maxArrayLength) (hav : m ≤ available) :
    Polygon.ctor available vertexes m
      = .ok { pos_ := ⟨-381137 / 93120, 12961 / 11640⟩,
              vertexes_ := builtinVertexes ++ List.replicate (m - 7) ⟨0, 0⟩ } := by
  have h2 : ¬ m ≤ 2 := by omega
  have h3 : ¬ m < 3 := by omega
  have hA : shoelaceSignedArea m (builtinVertexes ++ List.replicate (m - 7) ⟨0, 0⟩) ≠ 0 := by
    rw [padded_signedArea m hm]; norm_num
  simp only [Polygon.ctor, newVertexes_eq_ok available m (by omega) hmax hav, h2, if_false,
    polyPos_eq, h3, hA, or_self, padded_centroid m hm]
  norm_num

/-- The constructor for a count above two for which `new` throws. -/
theorem Polygon.ctor_no_cells (available : ℕ) (vertexes : List point_t) (n : ℕ) (h3 : 3 ≤ n)
    (h : n < 7 ∨ maxArrayLength < n ∨ available < n) :
    Polygon.ctor available vertexes n = .error .bad_alloc := by
  have h2 : ¬ n ≤ 2 := by omega
  simp only [Polygon.ctor, newVertexes_eq_error available n h, h2, if_false]

/-! ## Reachable objects -/

/-- Every reachable object satisfies the guards of its constructor. -/
theorem Reachable.guards_hold (s : Shape) (h : Reachable s) : s.wellFormed := by
  induction h with
  | rectangle pos width height r hr => exact Rectangle.ctor_guard pos width height r hr
  | rubber pos outCenter rPos rOut r hr => exact Rubber.ctor_radii pos outCenter rPos rOut r hr
  | polygon available vertexes n p hp =>
    obtain ⟨h7, _, _, _, hn, _⟩ := Polygon.ctor_ok available vertexes n p hp
    simp only [Shape.wellFormed, hn]
    omega
  | move s c _ ih => exact s.wellFormed_move c ih
  | moveBy s d_x d_y _ ih => exact s.wellFormed_moveBy d_x d_y ih
  | scale s k _ hk ih =>
    rw [Shape.scale_pos s k hk]
    exact s.wellFormed_scaleImpl k hk ih

/-- Every reachable polygon is well formed. -/
theorem Reachable.polygon_centred (s : Shape) (h : Reachable s) :
    ∀ p, s = .polygon p → p.centred := by
  induction h with
  | rectangle pos width height r hr => intro p e; cases e
  | rubber pos outCenter rPos rOut r hr => intro p e; cases e
  | polygon available vertexes n q hq =>
    intro p e
    injection e with e
    subst e
    obtain ⟨h7, _, _, _, hn, hA, hC⟩ := Polygon.ctor_ok available vertexes n q hq
    exact ⟨by omega, by rw [hn]; exact hA, by rw [hn]; exact hC⟩
  | move s c _ ih =>
    intro p e
    cases s with
    | rectangle r => cases e
    | rubber r => cases e
    | polygon q =>
      injection e with e
      subst e
      exact q.centred_move c (ih q rfl)
  | moveBy s d_x d_y _ ih =>
    intro p e
    cases s with
    | rectangle r => cases e
    | rubber r => cases e
    | polygon q =>
      injection e with e
      subst e
      exact q.centred_moveBy d_x d_y (ih q rfl)
  | scale s k _ hk ih =>
    intro p e
    rw [Shape.scale_pos s k hk] at e
    cases s with
    | rectangle r => cases e
    | rubber r => cases e
    | polygon q =>
      injection e with e
      subst e
      exact q.centred_scaleImpl k hk.ne.symm (ih q rfl)

/-! ## Claims -/

/-- C1, the claim as stated fails: at the figures of `main` with target `(1, 1)` and factor
`2`, the centres of the bounding rectangles after `userShape` (first list) differ from
`target + factor · (before − target)` (second list) for the `Rubber` and the `Polygon`. -/
theorem C1_userShape_centre_counterexample :
    (userShape startupList ⟨1, 1⟩ 2).2.map (fun t => t.getFrameRect.pos)
      = [⟨5, 5⟩, ⟨-5, 0⟩, ⟨167513 / 31260, 73606 / 7815⟩] ∧
    startupList.map (fun s => scaledAbout ⟨1, 1⟩ s.getFrameRect.pos 2)
      = [⟨5, 5⟩, ⟨-11, -1⟩, ⟨-47 / 10, 18 / 5⟩] ∧
    (userShape startupList ⟨1, 1⟩ 2).2.map (fun t => t.getFrameRect.pos)
      ≠ startupList.map (fun s => scaledAbout ⟨1, 1⟩ s.getFrameRect.pos 2) := by
  have h1 : (userShape startupList ⟨1, 1⟩ 2).2.map (fun t => t.getFrameRect.pos)
      = [⟨5, 5⟩, ⟨-5, 0⟩, ⟨167513 / 31260, 73606 / 7815⟩] := by
    norm_num [userShape, userShapeStep, startupList, startupRectangle, startupRubber,
      startupPolygon, Shape.scale, Shape.scaleImpl, Shape.move,
      Shape.getFrameRect, Rectangle.move, Rectangle.scaleImpl, Rectangle.getFrameRect,
      Rubber.move, Rubber.scaleImpl, Rubber.getFrameRect, Polygon.move, Polygon.scaleImpl,
      Polygon.getFrameRect, builtinVertexes, vertexAt, frameStep]
  have h2 : startupList.map (fun s => scaledAbout ⟨1, 1⟩ s.getFrameRect.pos 2)
      = [⟨5, 5⟩, ⟨-11, -1⟩, ⟨-47 / 10, 18 / 5⟩] := by
    norm_num [startupList, startupRectangle, startupRubber, startupPolygon, scaledAbout,
      Shape.getFrameRect, Rectangle.getFrameRect,
      Rubber.getFrameRect, Polygon.getFrameRect, builtinVertexes, vertexAt, frameStep]
  refine ⟨h1, h2, ?_⟩
  rw [h1, h2]
  norm_num

/-- C1, amended: for well-formed figures and a positive factor, `userShape` throws nothing
and relates each figure to its transform by `userShapeRel`: width and height of the
bounding rectangle are multiplied by the factor and the reference point becomes
`target + factor · (before − target)`; the centre of the bounding rectangle is that point
for a `Rectangle`, stays where it was for a `Rubber`, and is that point plus
`factor · (before − pos_)` for a `Polygon`. -/
theorem C1_userShape_frame (figures : List Shape) (target : point_t) (factor : ℚ)
    (hfactor : 0 < factor) (hwf : ∀ s ∈ figures, s.wellFormed) :
    (userShape figures target factor).1 = none ∧
    List.Forall₂ (userShapeRel target factor) figures (userShape figures target factor).2 := by
  rw [userShape_pos figures target factor hfactor]
  refine ⟨rfl, ?_⟩
  rw [List.forall₂_map_right_iff, List.forall₂_same]
  exact fun s hs => userShapeStep_rel s target factor hfactor (hwf s hs)

theorem startupList_wellFormed : ∀ s ∈ startupList, s.wellFormed := by
  intro s hs
  simp only [startupList, List.mem_cons, List.mem_singleton, List.not_mem_nil, or_false] at hs
  rcases hs with rfl | rfl | rfl <;>
    norm_num [Shape.wellFormed, Polygon.n_, builtinVertexes, startupRectangle, startupRubber,
      startupPolygon]

/-- C1, the amended statement at the figures of `main`, target `(1, 1)` and factor `2`. -/
theorem C1_userShape_frame_witness :
    (0 : ℚ) < 2 ∧ (∀ s ∈ startupList, s.wellFormed) ∧
    (userShape startupList ⟨1, 1⟩ 2).1 = none ∧
    List.Forall₂ (userShapeRel ⟨1, 1⟩ 2) startupList (userShape startupList ⟨1, 1⟩ 2).2 :=
  ⟨by norm_num, startupList_wellFormed,
    C1_userShape_frame startupList ⟨1, 1⟩ 2 (by norm_num) startupList_wellFormed⟩

/-- C2, the claim as stated fails for `Polygon`: the polygon of `main` moved to `(0, 0)`
has the centre of its bounding rectangle at `(62887/12504, 22736/7815)`, not at `(0, 0)`. -/
theorem C2_moveTo_polygon_counterexample :
    (Shape.move (.polygon startupPolygon) ⟨0, 0⟩).getFrameRect.pos
      = ⟨62887 / 12504, 22736 / 7815⟩ ∧
    (Shape.move (.polygon startupPolygon) ⟨0, 0⟩).getFrameRect.pos ≠ ⟨0, 0⟩ := by
  have h : (Shape.move (.polygon startupPolygon) ⟨0, 0⟩).getFrameRect.pos
      = ⟨62887 / 12504, 22736 / 7815⟩ := by
    norm_num [Shape.move, Shape.getFrameRect, Polygon.move, Polygon.getFrameRect, startupPolygon,
      builtinVertexes, vertexAt, frameStep]
  refine ⟨h, ?_⟩
  rw [h]
  norm_num

/-- C2, amended: after `moveTo(p)` the centre of the bounding rectangle of a `Rectangle` is
`p`; for a `Polygon` the reference point is `p` and the centre of the bounding rectangle
is the old centre translated by `p − pos_`, so it is `p` exactly when the old centre was
the reference point. -/
theorem C2_moveTo_centre (r : Rectangle) (q : Polygon) (p : point_t) (hq : 2 < q.n_) :
    (Shape.move (.rectangle r) p).getFrameRect.pos = p ∧
    (Shape.move (.polygon q) p).pos_ = p ∧
    (Shape.move (.polygon q) p).getFrameRect.pos
      = ⟨q.getFrameRect.pos.x + (p.x - q.pos_.x), q.getFrameRect.pos.y + (p.y - q.pos_.y)⟩ ∧
    ((Shape.move (.polygon q) p).getFrameRect.pos = p ↔ q.getFrameRect.pos = q.pos_) := by
  obtain ⟨_, _, h3, h4⟩ := q.getFrameRect_move p (q.ne_nil_of_wellFormed hq)
  have e : (Shape.move (.polygon q) p).getFrameRect.pos
      = ⟨q.getFrameRect.pos.x + (p.x - q.pos_.x), q.getFrameRect.pos.y + (p.y - q.pos_.y)⟩ := by
    ext
    · exact h3
    · exact h4
  refine ⟨rfl, rfl, e, ?_⟩
  rw [e]
  constructor
  · intro h
    have hx := congrArg point_t.x h
    have hy := congrArg point_t.y h
    simp only at hx hy
    ext <;> linarith
  · intro h
    rw [h]
    ext <;> simp

/-- C2, the amended statement at the rectangle and the polygon of `main` and `p = (0, 0)`. -/
theorem C2_moveTo_centre_witness :
    2 < startupPolygon.n_ ∧
    (Shape.move (.rectangle startupRectangle) ⟨0, 0⟩).getFrameRect.pos = ⟨0, 0⟩ ∧
    (Shape.move (.polygon startupPolygon) ⟨0, 0⟩).pos_ = ⟨0, 0⟩ :=
  have h : 2 < startupPolygon.n_ := by decide
  ⟨h, (C2_moveTo_centre startupRectangle startupPolygon ⟨0, 0⟩ h).1,
    (C2_moveTo_centre startupRectangle startupPolygon ⟨0, 0⟩ h).2.1⟩

/-- C4: for a polygon of at least three vertices, `getFrameRect` is the tight box of the
vertices: there are extremes `min_x`, `max_x`, `min_y`, `max_y`, each a bound of every
vertex and each attained by some vertex, such that the width is `max_x − min_x`, the
height is `max_y − min_y` and the centre is the midpoint of the extremes; every vertex lies
in the box and each of the four sides passes through some vertex. -/
theorem C4_getFrameRect_tight (p : Polygon) (h : 3 ≤ p.n_) :
    ∃ min_x max_x min_y max_y : ℚ,
      (∀ v ∈ p.vertexes_, min_x ≤ v.x ∧ v.x ≤ max_x ∧ min_y ≤ v.y ∧ v.y ≤ max_y) ∧
      (∃ v ∈ p.vertexes_, v.x = min_x) ∧ (∃ v ∈ p.vertexes_, v.x = max_x) ∧
      (∃ v ∈ p.vertexes_, v.y = min_y) ∧ (∃ v ∈ p.vertexes_, v.y = max_y) ∧
      p.getFrameRect.width = max_x - min_x ∧ p.getFrameRect.height = max_y - min_y ∧
      p.getFrameRect.pos = ⟨(min_x + max_x) / 2, (min_y + max_y) / 2⟩ ∧
      (∀ v ∈ p.vertexes_,
        p.getFrameRect.pos.x - p.getFrameRect.width / 2 ≤ v.x ∧
        v.x ≤ p.getFrameRect.pos.x + p.getFrameRect.width / 2 ∧
        p.getFrameRect.pos.y - p.getFrameRect.height / 2 ≤ v.y ∧
        v.y ≤ p.getFrameRect.pos.y + p.getFrameRect.height / 2) ∧
      (∃ v ∈ p.vertexes_, v.x = p.getFrameRect.pos.x - p.getFrameRect.width / 2) ∧
      (∃ v ∈ p.vertexes_, v.x = p.getFrameRect.pos.x + p.getFrameRect.width / 2) ∧
      (∃ v ∈ p.vertexes_, v.y = p.getFrameRect.pos.y - p.getFrameRect.height / 2) ∧
      (∃ v ∈ p.vertexes_, v.y = p.getFrameRect.pos.y + p.getFrameRect.height / 2) := by
  have hne : p.vertexes_ ≠ [] := p.ne_nil_of_wellFormed (by omega)
  have h0 := vertexAt_zero_mem p.vertexes_ hne
  obtain ⟨f1, f2, f3, f4⟩ := p.getFrameRect_fields
  have bound : ∀ v ∈ p.vertexes_,
      (p.vertexes_.map point_t.x).foldl min (vertexAt p.vertexes_ 0).x ≤ v.x ∧
      v.x ≤ (p.vertexes_.map point_t.x).foldl max (vertexAt p.vertexes_ 0).x ∧
      (p.vertexes_.map point_t.y).foldl min (vertexAt p.vertexes_ 0).y ≤ v.y ∧
      v.y ≤ (p.vertexes_.map point_t.y).foldl max (vertexAt p.vertexes_ 0).y :=
    fun v hv => ⟨foldl_min_le _ _ _ (List.mem_map_of_mem _ hv),
      le_foldl_max _ _ _ (List.mem_map_of_mem _ hv),
      foldl_min_le _ _ _ (List.mem_map_of_mem _ hv),
      le_foldl_max _ _ _ (List.mem_map_of_mem _ hv)⟩
  have att : ∀ (f : point_t → ℚ) (m : ℚ),
      (m = f (vertexAt p.vertexes_ 0) ∨ m ∈ p.vertexes_.map f) → ∃ v ∈ p.vertexes_, f v = m := by
    intro f m hm
    rcases hm with hm | hm
    · exact ⟨_, h0, hm.symm⟩
    · obtain ⟨v, hv, e⟩ := List.mem_map.mp hm
      exact ⟨v, hv, e⟩
  have a1 := att point_t.x _ (foldl_min_mem (p.vertexes_.map point_t.x) (vertexAt p.vertexes_ 0).x)
  have a2 := att point_t.x _ (foldl_max_mem (p.vertexes_.map point_t.x) (vertexAt p.vertexes_ 0).x)
  have a3 := att point_t.y _ (foldl_min_mem (p.vertexes_.map point_t.y) (vertexAt p.vertexes_ 0).y)
  have a4 := att point_t.y _ (foldl_max_mem (p.vertexes_.map point_t.y) (vertexAt p.vertexes_ 0).y)
  have s1 : p.getFrameRect.pos.x - p.getFrameRect.width / 2
      = (p.vertexes_.map point_t.x).foldl min (vertexAt p.vertexes_ 0).x := by
    rw [f1, f3]; ring
  have s2 : p.getFrameRect.pos.x + p.getFrameRect.width / 2
      = (p.vertexes_.map point_t.x).foldl max (vertexAt p.vertexes_ 0).x := by
    rw [f1, f3]; ring
  have s3 : p.getFrameRect.pos.y - p.getFrameRect.height / 2
      = (p.vertexes_.map point_t.y).foldl min (vertexAt p.vertexes_ 0).y := by
    rw [f2, f4]; ring
  have s4 : p.getFrameRect.pos.y + p.getFrameRect.height / 2
      = (p.vertexes_.map point_t.y).foldl max (vertexAt p.vertexes_ 0).y := by
    rw [f2, f4]; ring
  refine ⟨_, _, _, _, bound, a1, a2, a3, a4, f1, f2, ?_, ?_, ?_, ?_, ?_, ?_⟩
  · ext
    · rw [f3]; ring
    · rw [f4]; ring
  · rw [s1, s2, s3, s4]; exact bound
  · rw [s1]; exact a1
  · rw [s2]; exact a2
  · rw [s3]; exact a3
  · rw [s4]; exact a4

/-- C4 at the polygon of `main`: its bounding rectangle has the sizes `max − min`. -/
theorem C4_getFrameRect_tight_witness :
    3 ≤ startupPolygon.n_ ∧
    ∃ min_x max_x min_y max_y : ℚ,
      startupPolygon.getFrameRect.width = max_x - min_x ∧
      startupPolygon.getFrameRect.height = max_y - min_y ∧
      startupPolygon.getFrameRect.pos = ⟨(min_x + max_x) / 2, (min_y + max_y) / 2⟩ :=
  have h : 3 ≤ startupPolygon.n_ := by decide
  ⟨h, by
    obtain ⟨a, b, c, d, _, _, _, _, _, hw, hh, hp, _⟩ := C4_getFrameRect_tight startupPolygon h
    exact ⟨a, b, c, d, hw, hh, hp⟩⟩

/-- C5: for every shape and every factor `> 0`, `scale(factor)` and then `scale(1/factor)`
both return normally and give back the original object (hence its area, its bounding
rectangle and, for a `Polygon`, every vertex), and the reference point `pos_` is the
original one after each of the two calls. -/
theorem C5_scale_roundtrip (s : Shape) (factor : ℚ) (hfactor : 0 < factor) :
    (s.scale factor).1 = none ∧
    ((s.scale factor).2.scale (1 / factor)).1 = none ∧
    ((s.scale factor).2.scale (1 / factor)).2 = s ∧
    ((s.scale factor).2.scale (1 / factor)).2.getArea = s.getArea ∧
    ((s.scale factor).2.scale (1 / factor)).2.getFrameRect = s.getFrameRect ∧
    (s.scale factor).2.pos_ = s.pos_ ∧
    ((s.scale factor).2.scale (1 / factor)).2.pos_ = s.pos_ := by
  have hinv : 0 < 1 / factor := one_div_pos.mpr hfactor
  have e : ((s.scale factor).2.scale (1 / factor)).2 = s := by
    rw [Shape.scale_pos s factor hfactor, Shape.scale_pos _ _ hinv]
    exact s.scaleImpl_inv factor hfactor.ne.symm
  refine ⟨?_, ?_, e, by rw [e], by rw [e], ?_, by rw [e]⟩
  · rw [Shape.scale_pos s factor hfactor]
  · rw [Shape.scale_pos s factor hfactor, Shape.scale_pos _ _ hinv]
  · rw [Shape.scale_pos s factor hfactor]; exact s.scaleImpl_pos_ factor

/-- C5 at the polygon of `main` and the factor `3`. -/
theorem C5_scale_roundtrip_witness :
    (0 : ℚ) < 3 ∧
    (((Shape.polygon startupPolygon).scale 3).2.scale (1 / 3)).2 = .polygon startupPolygon ∧
    ((Shape.polygon startupPolygon).scale 3).2.pos_ = startupPolygon.pos_ :=
  ⟨by norm_num, (C5_scale_roundtrip (.polygon startupPolygon) 3 (by norm_num)).2.2.1,
    (C5_scale_roundtrip (.polygon startupPolygon) 3 (by norm_num)).2.2.2.2.2.1⟩

/-- C7: for every shape and every factor, `scale(factor)` throws `invalid_argument` exactly
when `factor ≤ 0` and throws nothing otherwise; whenever it throws, the object is the one
before the call; `scale(0)` and `scale(-1)` throw and change nothing. -/
theorem C7_scale_fails_iff (s : Shape) (factor : ℚ) :
    ((s.scale factor).1 = some .invalid_argument ↔ factor ≤ 0) ∧
    ((s.scale factor).1 = none ↔ 0 < factor) ∧
    ((s.scale factor).1 = none ∨ (s.scale factor).2 = s) ∧
    s.scale 0 = (some .invalid_argument, s) ∧
    s.scale (-1) = (some .invalid_argument, s) := by
  refine ⟨?_, ?_, ?_, s.scale_nonpos 0 le_rfl, s.scale_nonpos (-1) (by norm_num)⟩
  · by_cases h : factor ≤ 0
    · simp [Shape.scale_nonpos s factor h, h]
    · simp [Shape.scale_pos s factor (not_le.mp h), h]
  · by_cases h : factor ≤ 0
    · simp [Shape.scale_nonpos s factor h, not_lt.mpr h]
    · simp [Shape.scale_pos s factor (not_le.mp h), not_le.mp h]
  · by_cases h : factor ≤ 0
    · right; rw [Shape.scale_nonpos s factor h]
    · left; rw [Shape.scale_pos s factor (not_le.mp h)]

/-- C8: for a non-empty array of figures and a factor `≤ 0`, `userShape` throws
`invalid_argument` during the first iteration: the figures after the first are untouched
and the first one is left as `move(target)` made it, with its reference point at the
target and with its area and the sizes of its bounding rectangle as before the call. -/
theorem C8_userShape_nonpositive (first : Shape) (rest : List Shape) (target : point_t)
    (factor : ℚ) (hfactor : factor ≤ 0) :
    userShape (first :: rest) target factor
      = (some .invalid_argument, first.move target :: rest) ∧
    (first.move target).pos_ = target ∧
    (first.move target).getArea = first.getArea ∧
    (first.move target).getFrameRect.width = first.getFrameRect.width ∧
    (first.move target).getFrameRect.height = first.getFrameRect.height :=
  ⟨userShape_nonpos first rest target factor hfactor, first.move_pos_ target,
    first.area_move target, first.frame_move_size target⟩

/-- C8 at the figures of `main`, target `(1, 1)` and factor `0`. -/
theorem C8_userShape_nonpositive_witness :
    (0 : ℚ) ≤ 0 ∧
    userShape startupList ⟨1, 1⟩ 0
      = (some .invalid_argument,
          [(Shape.rectangle startupRectangle).move ⟨1, 1⟩, .rubber startupRubber,
            .polygon startupPolygon]) :=
  ⟨le_rfl, (C8_userShape_nonpositive (.rectangle startupRectangle)
    [.rubber startupRubber, .polygon startupPolygon] ⟨1, 1⟩ 0 le_rfl).1⟩

/-- C9: for every array of well-formed figures, the rectangle returned by `fullFrame`
encloses the bounding rectangle of each figure: all four of its corners lie within
`[pos.x ± width/2] × [pos.y ± height/2]` of the result. -/
theorem C9_fullFrame_encloses (figures : List Shape) (hwf : ∀ s ∈ figures, s.wellFormed) :
    ∀ s ∈ figures, encloses (fullFrame figures) s.getFrameRect := by
  intro s hs
  obtain ⟨e1, e2, e3, e4⟩ := fullFrame_edges figures
  obtain ⟨hw, hh⟩ := s.getFrameRect_nonneg (hwf s hs)
  have l1 := foldl_min_le
    (figures.map (fun s => s.getFrameRect.pos.x - s.getFrameRect.width * 0.5)) 0 _
    (List.mem_map_of_mem _ hs)
  have l2 := le_foldl_max
    (figures.map (fun s => s.getFrameRect.pos.x + s.getFrameRect.width * 0.5)) 0 _
    (List.mem_map_of_mem _ hs)
  have l3 := foldl_min_le
    (figures.map (fun s => s.getFrameRect.pos.y - s.getFrameRect.height * 0.5)) 0 _
    (List.mem_map_of_mem _ hs)
  have l4 := le_foldl_max
    (figures.map (fun s => s.getFrameRect.pos.y + s.getFrameRect.height * 0.5)) 0 _
    (List.mem_map_of_mem _ hs)
  simp only at l1 l2 l3 l4
  norm_num at l1 l2 l3 l4
  unfold encloses
  rw [e1, e2, e3, e4]
  norm_num
  refine ⟨⟨?_, ?_⟩, ⟨?_, ?_⟩, ⟨?_, ?_⟩, ⟨?_, ?_⟩⟩ <;> linarith

/-- C9 at the figures of `main`: the twelve corners of the three bounding rectangles are
enclosed by the aggregate rectangle. -/
theorem C9_fullFrame_encloses_witness :
    (∀ s ∈ startupList, s.wellFormed) ∧
    startupList.map Shape.getFrameRect
      = [{ pos := ⟨3, 3⟩, width := 8, height := 5 },
         { pos := ⟨-5, 0⟩, width := 18, height := 18 },
         { pos := ⟨-1.85, 2.3⟩, width := 10.9, height := 14 }] ∧
    ∀ s ∈ startupList, encloses (fullFrame startupList) s.getFrameRect :=
  ⟨startupList_wellFormed, startupList_getFrameRect,
    C9_fullFrame_encloses startupList startupList_wellFormed⟩

/-- C10, the claim as stated fails in its value: the `Rubber` of `main` (inner radius 3.5,
outer radius 9) has area `M_PI · (81 − 12.25)`, which does not round to `216.46`; nor does
`π · (81 − 12.25)` for the real number π. -/
theorem C10_area_value_counterexample :
    ∃ rb, Rubber.ctor ⟨-7, -2⟩ ⟨-5, 0⟩ 3.5 9 = .ok rb ∧
      rb.getArea = M_PI * (81 - 12.25) ∧
      ¬ (216.455 ≤ rb.getArea ∧ rb.getArea < 216.465) ∧
      ¬ (216.455 ≤ Real.pi * (81 - 12.25)) := by
  refine ⟨startupRubber, ?_, ?_, ?_, ?_⟩
  · norm_num [Rubber.ctor, startupRubber]
  · norm_num [Rubber.getArea, startupRubber]; ring
  · norm_num [Rubber.getArea, startupRubber, M_PI]
  · have := Real.pi_lt_d4
    norm_num at this ⊢
    linarith

/-- C10, amended: for positive radii `r` (inner) and `R` (outer) the constructor returns a
`Rubber` whose `getArea` is `M_PI · R² − M_PI · r²`; for `r = 3.5` and `R = 9` this is
`M_PI · (81 − 12.25)`, which is `215.98` to two decimals and is within `10⁻¹²` of
`π · (81 − 12.25)`. -/
theorem C10_rubber_area (pos outCenter : point_t) (r R : ℚ) (hr : 0 < r) (hR : 0 < R) :
    (∃ rb, Rubber.ctor pos outCenter r R = .ok rb ∧
      rb.getArea = M_PI * R ^ 2 - M_PI * r ^ 2) ∧
    ∃ rb, Rubber.ctor pos outCenter 3.5 9 = .ok rb ∧
      rb.getArea = M_PI * (81 - 12.25) ∧
      215.975 ≤ rb.getArea ∧ rb.getArea < 215.985 ∧
      |((rb.getArea : ℚ) : ℝ) - Real.pi * (81 - 12.25)| < 1 / 10 ^ 12 := by
  refine ⟨⟨⟨pos, outCenter, r, R⟩, ?_, ?_⟩, ⟨pos, outCenter, 3.5, 9⟩, ?_, ?_, ?_, ?_, ?_⟩
  · simp [Rubber.ctor, not_le.mpr hr, not_le.mpr hR]
  · simp only [Rubber.getArea]; ring
  · norm_num [Rubber.ctor]
  · norm_num [Rubber.getArea]; ring
  · norm_num [Rubber.getArea, M_PI]
  · norm_num [Rubber.getArea, M_PI]
  · have h := M_PI_near_pi
    have e : (((Rubber.getArea ⟨pos, outCenter, 3.5, 9⟩ : ℚ) : ℝ)) - Real.pi * (81 - 12.25)
        = (((M_PI : ℚ) : ℝ) - Real.pi) * 68.75 := by
      simp only [Rubber.getArea]
      push_cast
      ring
    rw [e, abs_mul]
    rw [abs_lt] at h
    have h3 : |((M_PI : ℚ) : ℝ) - Real.pi| < 1 / 10 ^ 15 := abs_lt.mpr h
    have h4 : |(68.75 : ℝ)| = 68.75 := abs_of_pos (by norm_num)
    rw [h4]
    nlinarith [abs_nonneg (((M_PI : ℚ) : ℝ) - Real.pi)]

/-- C10, the general formula at the radii `1` and `2`. -/
theorem C10_rubber_area_witness :
    (0 : ℚ) < 1 ∧ (0 : ℚ) < 2 ∧
    ∃ rb, Rubber.ctor ⟨0, 0⟩ ⟨0, 0⟩ 1 2 = .ok rb ∧ rb.getArea = M_PI * 2 ^ 2 - M_PI * 1 ^ 2 :=
  ⟨by norm_num, by norm_num,
    (C10_rubber_area ⟨0, 0⟩ ⟨0, 0⟩ 1 2 (by norm_num) (by norm_num)).1⟩

/-- C11: the constructor of `Rectangle` throws `invalid_argument` exactly when the width or
the height is `≤ 0`, the constructor of `Rubber` throws `invalid_argument` exactly when the
inner or the outer radius is `≤ 0`; in every other case the constructor returns the object
that stores the given centre(s) and sizes unchanged. -/
theorem C11_ctor_guards (pos outCenter : point_t) (width height rPos rOut : ℚ) :
    (Rectangle.ctor pos width height = .error .invalid_argument ↔ width ≤ 0 ∨ height ≤ 0) ∧
    (Rectangle.ctor pos width height
        = .ok { pos_ := pos, width_ := width, height_ := height }
      ↔ ¬ (width ≤ 0 ∨ height ≤ 0)) ∧
    (Rubber.ctor pos outCenter rPos rOut = .error .invalid_argument
      ↔ rPos ≤ 0 ∨ rOut ≤ 0) ∧
    (Rubber.ctor pos outCenter rPos rOut
        = .ok { pos_ := pos, outCenter_ := outCenter, rPos_ := rPos, rOut_ := rOut }
      ↔ ¬ (rPos ≤ 0 ∨ rOut ≤ 0)) := by
  refine ⟨?_, ?_, ?_, ?_⟩
  · by_cases h : width ≤ 0 ∨ height ≤ 0 <;> simp [Rectangle.ctor, h]
  · by_cases h : width ≤ 0 ∨ height ≤ 0 <;> simp [Rectangle.ctor, h]
  · by_cases h : rOut ≤ 0 ∨ rPos ≤ 0
    · simp [Rubber.ctor, h, or_comm.mp h]
    · have h2 : ¬ (rPos ≤ 0 ∨ rOut ≤ 0) := fun c => h (or_comm.mp c)
      simp [Rubber.ctor, h, h2]
  · by_cases h : rOut ≤ 0 ∨ rPos ≤ 0
    · simp [Rubber.ctor, h, or_comm.mp h]
    · have h2 : ¬ (rPos ≤ 0 ∨ rOut ≤ 0) := fun c => h (or_comm.mp c)
      simp [Rubber.ctor, h, h2]

/-- C13: for every vertex array and every count `n`, `polyPos` returns 1 exactly when
`n < 3` or the cyclic shoelace signed area `A` is zero, and then the output point is the
one passed in; in every other case it returns 0 and the output point is the shoelace
centroid `(Σ (x_i + x_j)(x_i·y_j − x_j·y_i) / (6A), Σ (y_i + y_j)(x_i·y_j − x_j·y_i) / (6A))`. -/
theorem C13_polyPos_result (pos : point_t) (n : ℕ) (vertexes : List point_t) :
    ((polyPos pos n vertexes).1 = 1 ↔ n < 3 ∨ shoelaceSignedArea n vertexes = 0) ∧
    ((polyPos pos n vertexes).1 = 0 ↔ ¬ (n < 3 ∨ shoelaceSignedArea n vertexes = 0)) ∧
    polyPos pos n vertexes
      = if n < 3 ∨ shoelaceSignedArea n vertexes = 0 then (1, pos)
        else (0, shoelaceCentroid n vertexes) := by
  refine ⟨?_, ?_, polyPos_eq pos n vertexes⟩
  · rw [polyPos_eq]
    by_cases h : n < 3 ∨ shoelaceSignedArea n vertexes = 0 <;> simp [h]
  · rw [polyPos_eq]
    by_cases h : n < 3 ∨ shoelaceSignedArea n vertexes = 0 <;> simp [h]

/-- C14: for every array of figures, the empty one included, `fullFrame` returns the
rectangle of width `right − left`, height `top − bottom` and centre the midpoint, where
`left` is the least of `0` and the left edges `cx − w/2` of the bounding rectangles,
`right` the greatest of `0` and the right edges `cx + w/2`, `bottom` the least of `0` and
the lower edges `cy − h/2`, `top` the greatest of `0` and the upper edges `cy + h/2`; for
the figures of `main` it has width 21, height 18.3 and centre `(−3.5, 0.15)`. -/
theorem C14_fullFrame_exact (figures : List Shape) :
    (∃ left right bottom top : ℚ,
      (left ≤ 0 ∧ (∀ s ∈ figures, left ≤ s.getFrameRect.pos.x - s.getFrameRect.width / 2) ∧
        (left = 0 ∨ ∃ s ∈ figures, s.getFrameRect.pos.x - s.getFrameRect.width / 2 = left)) ∧
      (0 ≤ right ∧ (∀ s ∈ figures, s.getFrameRect.pos.x + s.getFrameRect.width / 2 ≤ right) ∧
        (right = 0 ∨
          ∃ s ∈ figures, s.getFrameRect.pos.x + s.getFrameRect.width / 2 = right)) ∧
      (bottom ≤ 0 ∧
        (∀ s ∈ figures, bottom ≤ s.getFrameRect.pos.y - s.getFrameRect.height / 2) ∧
        (bottom = 0 ∨
          ∃ s ∈ figures, s.getFrameRect.pos.y - s.getFrameRect.height / 2 = bottom)) ∧
      (0 ≤ top ∧ (∀ s ∈ figures, s.getFrameRect.pos.y + s.getFrameRect.height / 2 ≤ top) ∧
        (top = 0 ∨ ∃ s ∈ figures, s.getFrameRect.pos.y + s.getFrameRect.height / 2 = top)) ∧
      fullFrame figures
        = { width := right - left, height := top - bottom,
            pos := ⟨(left + right) / 2, (bottom + top) / 2⟩ }) ∧
    fullFrame [] = { width := 0, height := 0, pos := ⟨0, 0⟩ } ∧
    fullFrame startupList = { width := 21, height := 18.3, pos := ⟨-3.5, 0.15⟩ } := by
  have att : ∀ (f : Shape → ℚ) (m : ℚ), (m = 0 ∨ m ∈ figures.map f) →
      (m = 0 ∨ ∃ s ∈ figures, f s = m) := by
    intro f m hm
    rcases hm with hm | hm
    · exact Or.inl hm
    · obtain ⟨s, hs, e⟩ := List.mem_map.mp hm
      exact Or.inr ⟨s, hs, e⟩
  have hL := att (fun s => s.getFrameRect.pos.x - s.getFrameRect.width / 2) _
    (foldl_min_mem (figures.map (fun s => s.getFrameRect.pos.x - s.getFrameRect.width / 2)) 0)
  have hR := att (fun s => s.getFrameRect.pos.x + s.getFrameRect.width / 2) _
    (foldl_max_mem (figures.map (fun s => s.getFrameRect.pos.x + s.getFrameRect.width / 2)) 0)
  have hB := att (fun s => s.getFrameRect.pos.y - s.getFrameRect.height / 2) _
    (foldl_min_mem (figures.map (fun s => s.getFrameRect.pos.y - s.getFrameRect.height / 2)) 0)
  have hT := att (fun s => s.getFrameRect.pos.y + s.getFrameRect.height / 2) _
    (foldl_max_mem (figures.map (fun s => s.getFrameRect.pos.y + s.getFrameRect.height / 2)) 0)
  have bL : ∀ s ∈ figures,
      (figures.map (fun s => s.getFrameRect.pos.x - s.getFrameRect.width / 2)).foldl min 0
        ≤ s.getFrameRect.pos.x - s.getFrameRect.width / 2 :=
    fun s hs => foldl_min_le _ 0 _
      (List.mem_map_of_mem (fun s => s.getFrameRect.pos.x - s.getFrameRect.width / 2) hs)
  have bR : ∀ s ∈ figures,
      s.getFrameRect.pos.x + s.getFrameRect.width / 2
        ≤ (figures.map (fun s => s.getFrameRect.pos.x + s.getFrameRect.width / 2)).foldl max 0 :=
    fun s hs => le_foldl_max _ 0 _
      (List.mem_map_of_mem (fun s => s.getFrameRect.pos.x + s.getFrameRect.width / 2) hs)
  have bB : ∀ s ∈ figures,
      (figures.map (fun s => s.getFrameRect.pos.y - s.getFrameRect.height / 2)).foldl min 0
        ≤ s.getFrameRect.pos.y - s.getFrameRect.height / 2 :=
    fun s hs => foldl_min_le _ 0 _
      (List.mem_map_of_mem (fun s => s.getFrameRect.pos.y - s.getFrameRect.height / 2) hs)
  have bT : ∀ s ∈ figures,
      s.getFrameRect.pos.y + s.getFrameRect.height / 2
        ≤ (figures.map (fun s => s.getFrameRect.pos.y + s.getFrameRect.height / 2)).foldl max 0 :=
    fun s hs => le_foldl_max _ 0 _
      (List.mem_map_of_mem (fun s => s.getFrameRect.pos.y + s.getFrameRect.height / 2) hs)
  refine ⟨?_, ?_, startupList_fullFrame⟩
  · refine ⟨(figures.map (fun s => s.getFrameRect.pos.x - s.getFrameRect.width / 2)).foldl min 0,
      (figures.map (fun s => s.getFrameRect.pos.x + s.getFrameRect.width / 2)).foldl max 0,
      (figures.map (fun s => s.getFrameRect.pos.y - s.getFrameRect.height / 2)).foldl min 0,
      (figures.map (fun s => s.getFrameRect.pos.y + s.getFrameRect.height / 2)).foldl max 0,
      ?_, ?_, ?_, ?_, ?_⟩
    · exact ⟨foldl_min_le_init _ 0, bL, hL⟩
    · exact ⟨le_foldl_max_init _ 0, bR, hR⟩
    · exact ⟨foldl_min_le_init _ 0, bB, hB⟩
    · exact ⟨le_foldl_max_init _ 0, bT, hT⟩
    · rw [fullFrame_eq]
      simp only [List.map_map, Function.comp_def]
  · rw [fullFrame_eq]
    norm_num

/-- C15: for every `Rubber`, `move(p)` and `move(dx, dy)` write the member `pos_` only;
`getArea` and `getFrameRect` are the same before and after, and `getFrameRect` is centred
at `outCenter_` with width and height `2 · rOut_`. -/
theorem C15_rubber_move_frame (r : Rubber) (p : point_t) (d_x d_y : ℚ) :
    Shape.move (.rubber r) p = .rubber { r with pos_ := p } ∧
    Shape.moveBy (.rubber r) d_x d_y
      = .rubber { r with pos_ := ⟨r.pos_.x + d_x, r.pos_.y + d_y⟩ } ∧
    (Shape.move (.rubber r) p).getArea = (Shape.rubber r).getArea ∧
    (Shape.move (.rubber r) p).getFrameRect = (Shape.rubber r).getFrameRect ∧
    (Shape.moveBy (.rubber r) d_x d_y).getArea = (Shape.rubber r).getArea ∧
    (Shape.moveBy (.rubber r) d_x d_y).getFrameRect = (Shape.rubber r).getFrameRect ∧
    (Shape.rubber r).getFrameRect
      = { pos := r.outCenter_, width := 2 * r.rOut_, height := 2 * r.rOut_ } := by
  refine ⟨rfl, rfl, rfl, rfl, rfl, rfl, ?_⟩
  simp only [Shape.getFrameRect, Rubber.getFrameRect, rectangle_t.mk.injEq, and_true]
  refine ⟨?_, ?_⟩ <;> ring

/-- C16: for every `Polygon` (more than two vertices), `move(c)` is `move(dx, dy)` with the
displacement `c − pos_`; `move(dx, dy)` translates the reference point and every vertex by
`(dx, dy)`, keeps `getArea` and the width and height of `getFrameRect`, and translates
the centre of `getFrameRect` by `(dx, dy)`; so does `move(c)` with its displacement. -/
theorem C16_polygon_moves (p : Polygon) (c : point_t) (d_x d_y : ℚ) (h : 2 < p.n_) :
    Shape.move (.polygon p) c = Shape.moveBy (.polygon p) (c.x - p.pos_.x) (c.y - p.pos_.y) ∧
    (p.moveBy d_x d_y).pos_ = ⟨p.pos_.x + d_x, p.pos_.y + d_y⟩ ∧
    (p.moveBy d_x d_y).vertexes_ = p.vertexes_.map (fun v => ⟨v.x + d_x, v.y + d_y⟩) ∧
    (Shape.moveBy (.polygon p) d_x d_y).getArea = (Shape.polygon p).getArea ∧
    (Shape.moveBy (.polygon p) d_x d_y).getFrameRect.width
      = (Shape.polygon p).getFrameRect.width ∧
    (Shape.moveBy (.polygon p) d_x d_y).getFrameRect.height
      = (Shape.polygon p).getFrameRect.height ∧
    (Shape.moveBy (.polygon p) d_x d_y).getFrameRect.pos
      = ⟨(Shape.polygon p).getFrameRect.pos.x + d_x,
          (Shape.polygon p).getFrameRect.pos.y + d_y⟩ ∧
    (Shape.move (.polygon p) c).getArea = (Shape.polygon p).getArea ∧
    (Shape.move (.polygon p) c).getFrameRect.width = (Shape.polygon p).getFrameRect.width ∧
    (Shape.move (.polygon p) c).getFrameRect.height = (Shape.polygon p).getFrameRect.height ∧
    (Shape.move (.polygon p) c).getFrameRect.pos
      = ⟨(Shape.polygon p).getFrameRect.pos.x + (c.x - p.pos_.x),
          (Shape.polygon p).getFrameRect.pos.y + (c.y - p.pos_.y)⟩ := by
  have hne := p.ne_nil_of_wellFormed h
  obtain ⟨a1, a2, a3, a4⟩ := p.getFrameRect_moveBy d_x d_y hne
  obtain ⟨b1, b2, b3, b4⟩ := p.getFrameRect_move c hne
  refine ⟨?_, rfl, rfl, p.getArea_moveBy d_x d_y, a1, a2, ?_, p.getArea_move c, b1, b2, ?_⟩
  · simp only [Shape.move, Shape.moveBy, p.move_eq_moveBy c]
  · ext
    · exact a3
    · exact a4
  · ext
    · exact b3
    · exact b4

/-- C16 at the polygon of `main`, the point `(0, 0)` and the displacement `(1, 2)`. -/
theorem C16_polygon_moves_witness :
    2 < startupPolygon.n_ ∧
    Shape.move (.polygon startupPolygon) ⟨0, 0⟩
      = Shape.moveBy (.polygon startupPolygon) (0 - startupPolygon.pos_.x)
          (0 - startupPolygon.pos_.y) ∧
    (Shape.moveBy (.polygon startupPolygon) 1 2).getArea
      = (Shape.polygon startupPolygon).getArea :=
  have h : 2 < startupPolygon.n_ := by decide
  ⟨h, (C16_polygon_moves startupPolygon ⟨0, 0⟩ 1 2 h).1,
    (C16_polygon_moves startupPolygon ⟨0, 0⟩ 1 2 h).2.2.2.1⟩

/-- C20: for all positive radii the constructor of `Rubber` returns normally, whatever
their order, and `getArea` of the result is `≥ 0` exactly when the outer radius is at
least the inner one; the same holds after `move(c)`, after `move(dx, dy)` and after
`scale(k)` with `k > 0`; with inner radius 9 and outer radius 3.5 the area is negative. -/
theorem C20_rubber_area_sign (pos outCenter c : point_t) (rPos rOut k d_x d_y : ℚ)
    (hPos : 0 < rPos) (hOut : 0 < rOut) (hk : 0 < k) :
    (∃ rb, Rubber.ctor pos outCenter rPos rOut = .ok rb ∧
      (0 ≤ (Shape.rubber rb).getArea ↔ rPos ≤ rOut) ∧
      (0 ≤ ((Shape.rubber rb).move c).getArea ↔ rPos ≤ rOut) ∧
      (0 ≤ ((Shape.rubber rb).moveBy d_x d_y).getArea ↔ rPos ≤ rOut) ∧
      ((Shape.rubber rb).scale k).1 = none ∧
      (0 ≤ ((Shape.rubber rb).scale k).2.getArea ↔ rPos ≤ rOut)) ∧
    ∃ rb, Rubber.ctor pos outCenter 9 3.5 = .ok rb ∧ (Shape.rubber rb).getArea < 0 := by
  refine ⟨⟨⟨pos, outCenter, rPos, rOut⟩, ?_, ?_, ?_, ?_, ?_, ?_⟩,
    ⟨pos, outCenter, 9, 3.5⟩, ?_, ?_⟩
  · simp [Rubber.ctor, not_le.mpr hPos, not_le.mpr hOut]
  · exact rubber_area_sign rPos rOut hPos hOut
  · exact rubber_area_sign rPos rOut hPos hOut
  · exact rubber_area_sign rPos rOut hPos hOut
  · rw [Shape.scale_pos _ k hk]
  · rw [Shape.scale_pos _ k hk]
    simp only [Shape.scaleImpl, Shape.getArea, Rubber.scaleImpl, Rubber.getArea]
    rw [rubber_area_sign (rPos * k) (rOut * k) (mul_pos hPos hk) (mul_pos hOut hk)]
    exact mul_le_mul_right hk
  · norm_num [Rubber.ctor]
  · norm_num [Shape.getArea, Rubber.getArea, M_PI]

/-- C20 at the radii of `main` (inner 3.5, outer 9) and the factor 2. -/
theorem C20_rubber_area_sign_witness :
    (0 : ℚ) < 3.5 ∧ (0 : ℚ) < 9 ∧ (0 : ℚ) < 2 ∧
    ∃ rb, Rubber.ctor ⟨-7, -2⟩ ⟨-5, 0⟩ 9 3.5 = .ok rb ∧ (Shape.rubber rb).getArea < 0 :=
  ⟨by norm_num, by norm_num, by norm_num,
    (C20_rubber_area_sign ⟨-7, -2⟩ ⟨-5, 0⟩ ⟨0, 0⟩ 3.5 9 2 0 0 (by norm_num) (by norm_num)
      (by norm_num)).2⟩

/-- C17: for every shape reachable from a constructor that returned normally by `move(p)`,
`move(dx, dy)` and `scale(k)` with `k > 0`, `getFrameRect` has width `≥ 0` and height
`≥ 0`, and the guards of its constructor still hold: a `Rectangle` has positive width and
height and a `Rubber` has positive inner and outer radius. -/
theorem C17_reachable_sizes (s : Shape) (h : Reachable s) :
    0 ≤ s.getFrameRect.width ∧ 0 ≤ s.getFrameRect.height ∧ s.wellFormed ∧
    match s with
    | .rectangle r => 0 < r.width_ ∧ 0 < r.height_
    | .rubber r => 0 < r.rPos_ ∧ 0 < r.rOut_
    | .polygon p => 2 < p.n_ := by
  have hw := Reachable.guards_hold s h
  obtain ⟨h1, h2⟩ := s.getFrameRect_nonneg hw
  refine ⟨h1, h2, hw, ?_⟩
  cases s with
  | rectangle r => exact hw
  | rubber r => exact ⟨hw.2, hw.1⟩
  | polygon p => exact hw

/-- C17 at the `Rubber` of `main` after `move((1, 1))` and `scale(2)`. -/
theorem C17_reachable_sizes_witness :
    Reachable (((Shape.rubber startupRubber).move ⟨1, 1⟩).scale 2).2 ∧
    0 ≤ (((Shape.rubber startupRubber).move ⟨1, 1⟩).scale 2).2.getFrameRect.width :=
  have h : Reachable (((Shape.rubber startupRubber).move ⟨1, 1⟩).scale 2).2 :=
    Reachable.scale _ 2
      (Reachable.move _ ⟨1, 1⟩
        (Reachable.rubber ⟨-7, -2⟩ ⟨-5, 0⟩ 3.5 9 startupRubber
          (by norm_num [Rubber.ctor, startupRubber])))
      (by norm_num)
  ⟨h, (C17_reachable_sizes _ h).1⟩

/-- C3, the code at the request of `main` (count 7, seven cells available): the constructor
throws nothing and stores the seven built-in vertices; the shoelace value
`0.5 · |Σ x_i · y_{i+1} − Σ y_i · x_{i+1}|` over that cyclic list is `10.42`, but `getArea`
returns `10`, because `abs` converts `buf1 − buf2 = −20.84` to the `int` `−20`. -/
theorem C3_builtin_polygon_area_truncated :
    ∃ p, Polygon.ctor 7 [] 7 = .ok p ∧ p.vertexes_ = builtinVertexes ∧
      0.5 * |(∑ i in Finset.range 7,
          (vertexAt builtinVertexes i).x * (vertexAt builtinVertexes ((i + 1) % 7)).y)
        - ∑ i in Finset.range 7,
          (vertexAt builtinVertexes i).y * (vertexAt builtinVertexes ((i + 1) % 7)).x|
        = 10.42 ∧
      2 * shoelaceSignedArea p.n_ p.vertexes_ = -20.84 ∧
      intAbs (-20.84) = 20 ∧
      p.getArea = 10 ∧
      p.getArea ≠ 0.5 * |(∑ i in Finset.range 7,
          (vertexAt builtinVertexes i).x * (vertexAt builtinVertexes ((i + 1) % 7)).y)
        - ∑ i in Finset.range 7,
          (vertexAt builtinVertexes i).y * (vertexAt builtinVertexes ((i + 1) % 7)).x| := by
  have hS : (∑ i in Finset.range 7,
        (vertexAt builtinVertexes i).x * (vertexAt builtinVertexes ((i + 1) % 7)).y)
      - ∑ i in Finset.range 7,
        (vertexAt builtinVertexes i).y * (vertexAt builtinVertexes ((i + 1) % 7)).x
      = -20.84 := by
    norm_num [Finset.sum_range_succ, builtinVertexes, vertexAt]
  have hv : (0.5 : ℚ) * |(-20.84 : ℚ)| = 10.42 := by
    rw [abs_of_neg (by norm_num)]; norm_num
  refine ⟨startupPolygon, Polygon.ctor_seven 7 [] le_rfl, rfl, ?_, ?_, ?_,
    startupPolygon_getArea, ?_⟩
  · rw [hS, hv]
  · rw [startupPolygon_signedArea]; norm_num
  · exact intAbs_eq_of_nonpos _ 20 (by norm_num) (by norm_num)
  · rw [hS, hv, startupPolygon_getArea]; norm_num

/-- C6, the code at the polygon of `main` and the factor 2: `getArea` is `10` before and
`41.5` after `scale(2)`, not `2² · 10`, because `abs` truncates `buf1 − buf2` (`−20.84`
before, `−83.36` after) to an `int`. The cyclic shoelace signed area of every non-empty
polygon is multiplied by `k²`; `getArea` of every `Rectangle` and every `Rubber` is
multiplied by `k²` for `k > 0`; the rectangle of width 8 and height 5 has area 40, and 160
after `scale(2)`. -/
theorem C6_scale_area_truncated :
    Polygon.ctor 7 [] 7 = .ok startupPolygon ∧
    (Shape.polygon startupPolygon).getArea = 10 ∧
    ((Shape.polygon startupPolygon).scale 2).1 = none ∧
    ((Shape.polygon startupPolygon).scale 2).2.getArea = 41.5 ∧
    ((Shape.polygon startupPolygon).scale 2).2.getArea
      ≠ 2 ^ 2 * (Shape.polygon startupPolygon).getArea ∧
    (∀ (p : Polygon) (k : ℚ), p.vertexes_ ≠ [] →
      shoelaceSignedArea (p.scaleImpl k).n_ (p.scaleImpl k).vertexes_
        = k ^ 2 * shoelaceSignedArea p.n_ p.vertexes_) ∧
    (∀ (r : Rectangle) (k : ℚ), 0 < k →
      ((Shape.rectangle r).scale k).1 = none ∧
      ((Shape.rectangle r).scale k).2.getArea = k ^ 2 * (Shape.rectangle r).getArea) ∧
    (∀ (r : Rubber) (k : ℚ), 0 < k →
      ((Shape.rubber r).scale k).1 = none ∧
      ((Shape.rubber r).scale k).2.getArea = k ^ 2 * (Shape.rubber r).getArea) ∧
    (∀ center : point_t, ∃ r, Rectangle.ctor center 8 5 = .ok r ∧
      (Shape.rectangle r).getArea = 40 ∧
      ((Shape.rectangle r).scale 2).1 = none ∧
      ((Shape.rectangle r).scale 2).2.getArea = 160) := by
  have h2 : (0 : ℚ) < 2 := by norm_num
  have hne : startupPolygon.vertexes_ ≠ [] := by simp [startupPolygon, builtinVertexes]
  have hA : ((Shape.polygon startupPolygon).scale 2).2.getArea = 41.5 := by
    rw [Shape.scale_pos _ 2 h2]
    simp only [Shape.scaleImpl, Shape.getArea]
    rw [Polygon.getArea_signed, startupPolygon.signedArea_scaleImpl 2 hne,
      startupPolygon_signedArea, intAbs_eq_of_nonpos _ 83 (by norm_num) (by norm_num)]
    norm_num
  have hB : (Shape.polygon startupPolygon).getArea = 10 := startupPolygon_getArea
  refine ⟨Polygon.ctor_seven 7 [] le_rfl, hB, ?_, hA, ?_, ?_, ?_, ?_, ?_⟩
  · rw [Shape.scale_pos _ 2 h2]
  · rw [hA, hB]; norm_num
  · exact fun p k h => p.signedArea_scaleImpl k h
  · intro r k hk
    rw [Shape.scale_pos _ k hk]
    exact ⟨rfl, r.box_area_scaled k⟩
  · intro r k hk
    rw [Shape.scale_pos _ k hk]
    exact ⟨rfl, r.ring_area_scaled k⟩
  · intro center
    refine ⟨⟨center, 8, 5⟩, ?_, ?_, ?_, ?_⟩
    · norm_num [Rectangle.ctor]
    · norm_num [Shape.getArea, Rectangle.getArea]
    · norm_num [Shape.scale]
    · norm_num [Shape.scale, Shape.scaleImpl, Shape.getArea, Rectangle.scaleImpl,
        Rectangle.getArea]

/-- C12, the claim as stated fails in the kind of the error: for the counts 0, 1 and 2 the
constructor of `Polygon` throws `invalid_argument`, not `logic_error`. -/
theorem C12_error_kind_counterexample :
    Polygon.ctor 7 [] 0 = .error .invalid_argument ∧
    Polygon.ctor 7 [] 1 = .error .invalid_argument ∧
    Polygon.ctor 7 [] 2 = .error .invalid_argument ∧
    Polygon.ctor 7 [] 2 ≠ .error .logic_error := by
  refine ⟨by simp [Polygon.ctor], by simp [Polygon.ctor], by simp [Polygon.ctor], ?_⟩
  simp [Polygon.ctor]

/-- C12, amended: for every requested count below 3 (whatever array is passed and whatever
the free store can supply), the constructor of `Polygon` throws, and the exception is
`invalid_argument`. -/
theorem C12_small_count_fails (available : ℕ) (vertexes : List point_t) (n : ℕ)
    (hn : n < 3) : Polygon.ctor available vertexes n = .error .invalid_argument := by
  have h : n ≤ 2 := by omega
  simp [Polygon.ctor, h]

/-- C12, the amended statement at the count 2 and the null array. -/
theorem C12_small_count_fails_witness :
    2 < 3 ∧ Polygon.ctor 7 [] 2 = .error .invalid_argument :=
  ⟨by decide, C12_small_count_fails 7 [] 2 (by decide)⟩

/-- C18, the code at the polygon of `main` after `scale(0.125)`: the object is reachable,
its cyclic shoelace signed area is `−521/3200`, not zero, and yet `getArea` returns `0`,
which is neither the absolute value of the signed area nor positive, because `abs`
truncates `buf1 − buf2 = −0.325625` to the `int` `0`. For every reachable polygon the
signed area is not zero, the reference point is the shoelace centroid of the current
vertices, `polyPos` on them returns 0 with that point, and `getArea` is half the truncated
absolute value of twice the signed area. -/
theorem C18_polygon_area_truncated :
    Polygon.ctor 7 [] 7 = .ok startupPolygon ∧
    Reachable (.polygon (startupPolygon.scaleImpl (1 / 8))) ∧
    shoelaceSignedArea (startupPolygon.scaleImpl (1 / 8)).n_
      (startupPolygon.scaleImpl (1 / 8)).vertexes_ = -521 / 3200 ∧
    (startupPolygon.scaleImpl (1 / 8)).getArea = 0 ∧
    (startupPolygon.scaleImpl (1 / 8)).getArea
      ≠ |shoelaceSignedArea (startupPolygon.scaleImpl (1 / 8)).n_
          (startupPolygon.scaleImpl (1 / 8)).vertexes_| ∧
    ¬ 0 < (startupPolygon.scaleImpl (1 / 8)).getArea ∧
    (∀ p : Polygon, Reachable (.polygon p) →
      shoelaceSignedArea p.n_ p.vertexes_ ≠ 0 ∧
      p.pos_ = shoelaceCentroid p.n_ p.vertexes_ ∧
      (∀ pos, polyPos pos p.n_ p.vertexes_ = (0, p.pos_)) ∧
      p.getArea = 0.5 * intAbs (2 * shoelaceSignedArea p.n_ p.vertexes_)) := by
  have hk : (0 : ℚ) < 1 / 8 := by norm_num
  have hne : startupPolygon.vertexes_ ≠ [] := by simp [startupPolygon, builtinVertexes]
  have hc := Polygon.ctor_seven 7 [] le_rfl
  have hr : Reachable (.polygon (startupPolygon.scaleImpl (1 / 8))) := by
    have h1 := Reachable.scale _ (1 / 8) (Reachable.polygon 7 [] 7 startupPolygon hc) hk
    rw [Shape.scale_pos _ _ hk] at h1
    exact h1
  have hA : shoelaceSignedArea (startupPolygon.scaleImpl (1 / 8)).n_
      (startupPolygon.scaleImpl (1 / 8)).vertexes_ = -521 / 3200 := by
    rw [startupPolygon.signedArea_scaleImpl (1 / 8) hne, startupPolygon_signedArea]
    norm_num
  have hG : (startupPolygon.scaleImpl (1 / 8)).getArea = 0 := by
    rw [Polygon.getArea_signed, hA, intAbs_eq_of_nonpos _ 0 (by norm_num) (by norm_num)]
    norm_num
  refine ⟨hc, hr, hA, hG, ?_, ?_, ?_⟩
  · rw [hG, hA, abs_of_neg (by norm_num)]; norm_num
  · rw [hG]; exact lt_irrefl 0
  · intro p h
    obtain ⟨h2, hA2, hC⟩ := Reachable.polygon_centred _ h p rfl
    refine ⟨hA2, hC, ?_, p.getArea_signed⟩
    intro pos
    have h3 : ¬ p.n_ < 3 := by omega
    rw [polyPos_eq, hC]
    simp [h3, hA2]

/-- C19, the claim as stated fails for counts that cannot be allocated: for the count
`2 ^ 59`, above `maxArrayLength`, the constructor returns normally for no state of the
free store, and for the count 9 with eight cells available it throws `bad_alloc`. -/
theorem C19_ctor_large_count_counterexample :
    7 ≤ 2 ^ 59 ∧ (¬ ∃ available p, Polygon.ctor available [] (2 ^ 59) = .ok p) ∧
    Polygon.ctor 8 [] 9 = .error .bad_alloc := by
  have hmax : maxArrayLength < 2 ^ 59 := by norm_num [maxArrayLength]
  refine ⟨by norm_num, ?_, ?_⟩
  · rintro ⟨available, p, h⟩
    exact absurd (Polygon.ctor_ok available [] _ p h).2.1 (not_le.mpr hmax)
  · exact Polygon.ctor_no_cells 8 [] 9 (by norm_num) (Or.inr (Or.inr (by norm_num)))

/-- C19, amended: the result of the constructor of `Polygon` is the same for every array
passed; for a count from 3 to 6 it throws `bad_alloc`; for a count `≥ 7` that can be
allocated (not above `maxArrayLength = 2 ^ 59 − 1` and not above the cells available) it
returns a polygon whose vertices are the seven built-in points followed by `count − 7`
copies of `(0, 0)`, and the cyclic shoelace signed area of that array is not zero (`−10.42`
for the count 7, `−15.52` for every larger count); for a count `≥ 7` that cannot be
allocated it throws `bad_alloc`. -/
theorem C19_ctor_by_count (available : ℕ) (vertexes other : List point_t)
    (n small large beyond : ℕ) (h3 : 3 ≤ small) (h6 : small ≤ 6) (h7 : 7 ≤ large)
    (hmax : large ≤ maxArrayLength) (hav : large ≤ available) (hb7 : 7 ≤ beyond)
    (hb : maxArrayLength < beyond ∨ available < beyond) :
    maxArrayLength = 2 ^ 59 - 1 ∧
    Polygon.ctor available vertexes n = Polygon.ctor available other n ∧
    Polygon.ctor available vertexes small = .error .bad_alloc ∧
    (∃ p, Polygon.ctor available vertexes large = .ok p ∧
      p.vertexes_ = builtinVertexes ++ List.replicate (large - 7) ⟨0, 0⟩ ∧
      shoelaceSignedArea large p.vertexes_ ≠ 0 ∧
      shoelaceSignedArea large p.vertexes_ = if large = 7 then -10.42 else -15.52) ∧
    Polygon.ctor available vertexes beyond = .error .bad_alloc := by
  refine ⟨maxArrayLength_eq, rfl,
    Polygon.ctor_no_cells available vertexes small h3 (Or.inl (by omega)), ?_,
    Polygon.ctor_no_cells available vertexes beyond (by omega) (Or.inr hb)⟩
  rcases Nat.eq_or_lt_of_le h7 with h | h
  · subst h
    refine ⟨startupPolygon, Polygon.ctor_seven available vertexes hav,
      by simp [startupPolygon], ?_, ?_⟩
    · simp only [startupPolygon, builtin_signedArea]; norm_num
    · simp only [startupPolygon, builtin_signedArea]; norm_num
  · have h8 : 8 ≤ large := h
    have hne : large ≠ 7 := by omega
    refine ⟨_, Polygon.ctor_large available vertexes large h8 hmax hav, rfl, ?_, ?_⟩
    · simp only [padded_signedArea large h8]; norm_num
    · simp only [padded_signedArea large h8, hne, if_false]; norm_num

/-- C19, the amended statement with 100 cells available at the counts 5, 9 and `2 ^ 59`. -/
theorem C19_ctor_by_count_witness :
    3 ≤ 5 ∧ 5 ≤ 6 ∧ 7 ≤ 9 ∧ 9 ≤ maxArrayLength ∧ 9 ≤ 100 ∧ 7 ≤ 2 ^ 59 ∧
    (maxArrayLength < 2 ^ 59 ∨ 100 < 2 ^ 59) ∧
    Polygon.ctor 100 [] 5 = .error .bad_alloc ∧
    (∃ p, Polygon.ctor 100 [] 9 = .ok p ∧
      p.vertexes_ = builtinVertexes ++ List.replicate (9 - 7) ⟨0, 0⟩ ∧
      shoelaceSignedArea 9 p.vertexes_ ≠ 0 ∧
      shoelaceSignedArea 9 p.vertexes_ = if 9 = 7 then -10.42 else -15.52) ∧
    Polygon.ctor 100 [] (2 ^ 59) = .error .bad_alloc :=
  have a1 : 9 ≤ maxArrayLength := by norm_num [maxArrayLength]
  have a2 : maxArrayLength < 2 ^ 59 ∨ 100 < 2 ^ 59 := Or.inr (by norm_num)
  ⟨by decide, by decide, by decide, a1, by decide, by norm_num, a2,
    (C19_ctor_by_count 100 [] [] 0 5 9 (2 ^ 59) (by decide) (by decide) (by decide) a1
      (by decide) (by norm_num) a2).2.2.1,
    (C19_ctor_by_count 100 [] [] 0 5 9 (2 ^ 59) (by decide) (by decide) (by decide) a1
      (by decide) (by norm_num) a2).2.2.2.1,
    (C19_ctor_by_count 100 [] [] 0 5 9 (2 ^ 59) (by decide) (by decide) (by decide) a1
      (by decide) (by norm_num) a2).2.2.2.2⟩

end lavrentev
